import Mathlib

/-!
Verification development for the teletools ABR database modules.

The definitions below are a shallow embedding of the Python/SQL code in
`src/teletools/database`: the carrier-resolution query of `abr_database.py`,
the date validation of `_abr_database.py`, the portability ingestion of
`_abr_portabilidade.py`, the consolidation SQL of
`_abr_portabilidade_sql_queries.py`, the numbering-plan import of
`_abr_numeracao.py` and the carrier registry update of `_abr_prestadoras.py`.
Machine integers are modelled as `Int`/`Nat` (the values involved stay far
below the 64-bit range used by the database columns), strings as `List Char`,
nullable SQL columns as `Option`, and failing operations as `Except`.
-/

deriving instance DecidableEq for Except

namespace Teletools

/-! ## Decimal text and integer parsing

These model Python `str(int)` / `int(str)` and PostgreSQL `::TEXT` /
integer-literal parsing in `COPY` and `CAST`. `natReprAux` is fuel-based so
that every definition evaluates by kernel reduction. -/

def natReprAux (fuel n : Nat) : List Char :=
  match fuel with
  | 0 => []
  | fuel + 1 =>
    if n < 10 then [Nat.digitChar n]
    else natReprAux fuel (n / 10) ++ [Nat.digitChar (n % 10)]

/-- Decimal text of a natural number (no leading zeros, no sign). -/
def natReprL (n : Nat) : List Char := natReprAux (n + 1) n

/-- Decimal text of an integer, models `str(int)` and `::TEXT`. -/
def intReprL (n : Int) : List Char :=
  if n < 0 then '-' :: natReprL n.natAbs else natReprL n.toNat

/-- Numeric value of a digit string (caller guarantees the digits). -/
def parseDigits (l : List Char) : Nat :=
  l.foldl (fun a c => a * 10 + (c.toNat - 48)) 0

/-- Parse an optionally signed decimal integer; `none` on malformed input.
Models `int(str)`, the integer parsing done by `COPY FROM` and by
`CAST(... AS SMALLINT/INTEGER/BIGINT)`. -/
def parseInt? (l : List Char) : Option Int :=
  match l with
  | '-' :: rest =>
    if rest ≠ [] ∧ rest.all Char.isDigit then some (-(parseDigits rest : Int)) else none
  | _ =>
    if l ≠ [] ∧ l.all Char.isDigit then some ((parseDigits l : Nat) : Int) else none

theorem natReprAux_fuel (f₁ f₂ n : Nat) (h₁ : n < f₁) (h₂ : n < f₂) :
    natReprAux f₁ n = natReprAux f₂ n := by
  induction n using Nat.strong_induction_on generalizing f₁ f₂ with
  | _ n ih =>
    match f₁, f₂ with
    | f₁ + 1, f₂ + 1 =>
      simp only [natReprAux]
      by_cases h : n < 10
      · simp [h]
      · have hd : n / 10 < n := Nat.div_lt_self (by omega) (by omega)
        simp only [if_neg h]
        exact congrArg (fun l => l ++ [Nat.digitChar (n % 10)])
          (ih (n / 10) hd f₁ f₂ (by omega) (by omega))

/-- Unfolding equation for `natReprL`. -/
theorem natReprL_eq (n : Nat) :
    natReprL n = if n < 10 then [Nat.digitChar n]
      else natReprL (n / 10) ++ [Nat.digitChar (n % 10)] := by
  by_cases h : n < 10
  · simp [natReprL, natReprAux, h]
  · have hd : n / 10 < n := Nat.div_lt_self (by omega) (by omega)
    have h1 : natReprL n = natReprAux n (n / 10) ++ [Nat.digitChar (n % 10)] := by
      show natReprAux (n + 1) n = _
      simp only [natReprAux, if_neg h]
    rw [h1, if_neg h, natReprAux_fuel n (n / 10 + 1) (n / 10) (by omega) (by omega)]
    rfl

theorem digitChar_isDigit {d : Nat} (h : d < 10) : (Nat.digitChar d).isDigit = true := by
  interval_cases d <;> decide

theorem digitChar_val {d : Nat} (h : d < 10) : (Nat.digitChar d).toNat - 48 = d := by
  interval_cases d <;> decide

theorem natReprL_ne_nil (n : Nat) : natReprL n ≠ [] := by
  rw [natReprL_eq]
  by_cases h : n < 10 <;> simp [h]

theorem natReprL_all_digits (n : Nat) : (natReprL n).all Char.isDigit = true := by
  induction n using Nat.strong_induction_on with
  | _ n ih =>
    rw [natReprL_eq]
    by_cases h : n < 10
    · simp [h, digitChar_isDigit h]
    · have hd : n / 10 < n := Nat.div_lt_self (by omega) (by omega)
      simp [h, ih (n / 10) hd, digitChar_isDigit (Nat.mod_lt n (by omega))]

theorem parseDigits_append (a b : List Char) :
    parseDigits (a ++ b) = b.foldl (fun x c => x * 10 + (c.toNat - 48)) (parseDigits a) := by
  simp [parseDigits, List.foldl_append]

/-- Parsing the decimal text of `n` gives back `n`. -/
theorem parseDigits_natReprL (n : Nat) : parseDigits (natReprL n) = n := by
  induction n using Nat.strong_induction_on with
  | _ n ih =>
    rw [natReprL_eq]
    by_cases h : n < 10
    · simp [h, parseDigits, digitChar_val h]
    · have hd : n / 10 < n := Nat.div_lt_self (by omega) (by omega)
      rw [if_neg h, parseDigits_append, ih (n / 10) hd]
      simp [digitChar_val (Nat.mod_lt n (by omega))]
      omega

theorem parseInt?_of_digits (l : List Char) (hne : l ≠ [])
    (hdig : l.all Char.isDigit = true) :
    parseInt? l = some ((parseDigits l : Nat) : Int) := by
  unfold parseInt?
  split
  · exfalso
    simp only [List.all_cons, Bool.and_eq_true] at hdig
    exact absurd hdig.1 (by decide)
  · rw [if_pos ⟨hne, hdig⟩]

theorem parseInt?_natReprL (n : Nat) : parseInt? (natReprL n) = some (n : Int) := by
  rw [parseInt?_of_digits _ (natReprL_ne_nil n) (natReprL_all_digits n), parseDigits_natReprL]

theorem natReprL_length_small {n : Nat} (h : n < 10) : (natReprL n).length = 1 := by
  rw [natReprL_eq, if_pos h]
  rfl

theorem natReprL_length_step {n : Nat} (h : ¬ n < 10) :
    (natReprL n).length = (natReprL (n / 10)).length + 1 := by
  conv_lhs => rw [natReprL_eq, if_neg h]
  simp

/-- The first two characters of the decimal text of `n` are the decimal text
of `n` with all but the two leading digits divided away. -/
theorem natReprL_take_two (n : Nat) (h2 : 2 ≤ (natReprL n).length) :
    (natReprL n).take 2 = natReprL (n / 10 ^ ((natReprL n).length - 2)) := by
  induction n using Nat.strong_induction_on with
  | _ n ih =>
    by_cases h : n < 10
    · rw [natReprL_length_small h] at h2
      omega
    · have hd : n / 10 < n := Nat.div_lt_self (by omega) (by omega)
      have hstep := natReprL_length_step h
      by_cases hk : (natReprL n).length = 2
      · rw [hk]
        simp only [Nat.sub_self, pow_zero, Nat.div_one]
        exact List.take_of_length_le (by omega)
      · have h2' : 2 ≤ (natReprL (n / 10)).length := by omega
        have heq : natReprL n = natReprL (n / 10) ++ [Nat.digitChar (n % 10)] := by
          rw [natReprL_eq, if_neg h]
        rw [heq, List.take_append_of_le_length (by omega), ih (n / 10) hd h2']
        have harith : n / 10 / 10 ^ ((natReprL (n / 10)).length - 2) =
            n / 10 ^ ((natReprL n).length - 2) := by
          rw [Nat.div_div_eq_div_mul, hstep]
          congr 1
          rw [show (natReprL (n / 10)).length + 1 - 2 = ((natReprL (n / 10)).length - 2) + 1 by omega]
          rw [pow_succ]
          ring
        rw [harith, ← heq]

/-! ## Carrier Resolution Engine

Shallow embedding of `query_numbers_carriers` in `abr_database.py` together
with the three tables it reads.  Table rows are modelled after the SQL
schemas: `tb_numeracao` (numbering plan), `tb_portabilidade_historico`
(consolidated portability history, in which `cod_receptora` is never NULL
because the consolidator writes `COALESCE(cod_receptora, -1)`) and
`tb_prestadoras` (carrier registry).  A `DATE` value is a day number. -/

structure NumeracaoRow where
  cod_prestadora : Int
  cn : Int
  prefixo : Int
  faixa_inicial : Int
  faixa_final : Int
deriving DecidableEq

structure HistoricoRow where
  tn_inicial : Int
  numero_bp : Int
  data_agendamento : Nat
  cod_receptora : Int
  cod_doadora : Int
  cod_status : Option Int
  ind_portar_origem : Option Int
  cn : Int
  nome_arquivo : List Char
deriving DecidableEq

structure PrestadoraRow where
  cod_prestadora : Int
  nome_prestadora : Option (List Char)
deriving DecidableEq

/-- Row of the scratch table `tb_numbers_to_query` after `COPY` parsed the
serialized strings into `BIGINT`/`SMALLINT`/`INTEGER`. -/
structure NtqRow where
  nu_terminal : Int
  cn : Int
  prefixo : Int
deriving DecidableEq

/-- Result row of the resolution query: `(nu_terminal, nome_prestadora,
ind_portado, ind_designado)`. -/
structure ResultRow where
  nu_terminal : Int
  nome_prestadora : Option (List Char)
  ind_portado : Int
  ind_designado : Int
deriving DecidableEq

/-- `cn` column of the query DataFrame (abr_database.py lines 130-134):
the first two characters for strings of length 10 or 11, else `"-1"`. -/
def cnField (s : List Char) : List Char :=
  if s.length = 10 ∨ s.length = 11 then s.take 2 else ['-', '1']

/-- `prefixo` column of the query DataFrame (abr_database.py lines 136-142):
characters `[2:6]` for length 10, `[2:7]` for length 11, else `"-1"`. -/
def prefixoField (s : List Char) : List Char :=
  if s.length = 10 then (s.drop 2).take 4
  else if s.length = 11 then (s.drop 2).take 5
  else ['-', '1']

inductive QueryError where
  | emptyInput
  | copyParseFailure
  | uniqueViolation
deriving DecidableEq

/-- `COPY` of the serialized DataFrame into the scratch table.  Each line's
three fields are parsed as integers; `nu_terminal` is the table's PRIMARY
KEY, so a duplicated number aborts the copy with a unique violation. -/
def copyNumbersToQuery (numbers : List (List Char)) : Except QueryError (List NtqRow) := do
  let rows ← numbers.mapM (fun s => do
    let nu ← match parseInt? s with
      | some v => pure v
      | none => throw QueryError.copyParseFailure
    let cn ← match parseInt? (cnField s) with
      | some v => pure v
      | none => throw QueryError.copyParseFailure
    let pfx ← match parseInt? (prefixoField s) with
      | some v => pure v
      | none => throw QueryError.copyParseFailure
    pure { nu_terminal := nu, cn := cn, prefixo := pfx : NtqRow })
  if (rows.map NtqRow.nu_terminal).Nodup then pure rows
  else throw QueryError.uniqueViolation

/-- The first lateral subquery: a numbering-plan row matching on `(cn,
prefixo)` whose range contains the number; `LIMIT 1` without `ORDER BY`
returns the first row found in scan order. -/
def tnLookup (tb_numeracao : List NumeracaoRow) (q : NtqRow) : Option NumeracaoRow :=
  tb_numeracao.find? (fun r =>
    r.cn = q.cn ∧ r.prefixo = q.prefixo ∧
    r.faixa_inicial ≤ q.nu_terminal ∧ q.nu_terminal ≤ r.faixa_final)

/-- The second lateral subquery: among history rows matching `(cn,
tn_inicial)` with `data_agendamento <= reference date`, the one with the
greatest `data_agendamento` (`ORDER BY data_agendamento DESC LIMIT 1`). -/
def upLookup (tb_historico : List HistoricoRow) (q : NtqRow) (ref_date : Nat) :
    Option HistoricoRow :=
  tb_historico.foldl (fun acc r =>
    if r.cn = q.cn ∧ r.tn_inicial = q.nu_terminal ∧ r.data_agendamento ≤ ref_date then
      match acc with
      | none => some r
      | some b => if b.data_agendamento < r.data_agendamento then some r else some b
    else acc) none

/-- One output row of the main resolution query for one scratch-table row. -/
def resolveRow (tb_numeracao : List NumeracaoRow) (tb_historico : List HistoricoRow)
    (tb_prestadoras : List PrestadoraRow) (ref_date : Nat) (q : NtqRow) : ResultRow :=
  let tn := tnLookup tb_numeracao q
  let up := upLookup tb_historico q ref_date
  let cod := (up.map HistoricoRow.cod_receptora).orElse
    (fun _ => tn.map NumeracaoRow.cod_prestadora)
  { nu_terminal := q.nu_terminal
    nome_prestadora := cod.bind (fun c =>
      (tb_prestadoras.find? (fun p => p.cod_prestadora = c)).bind PrestadoraRow.nome_prestadora)
    ind_portado := if up.isSome then 1 else 0
    ind_designado := if tn.isSome then 1 else 0 }

/-- `query_numbers_carriers` of `abr_database.py`: reject an empty batch,
derive `cn`/`prefixo` per number, `COPY` into the scratch table and run the
main query.  The main `SELECT` has no `ORDER BY`, so the rows come back in
the scratch table's scan order, which is the `COPY` insertion order. -/
def query_numbers_carriers (tb_numeracao : List NumeracaoRow)
    (tb_historico : List HistoricoRow) (tb_prestadoras : List PrestadoraRow)
    (numbers_to_query : List (List Char)) (ref_date : Nat) :
    Except QueryError (List ResultRow) := do
  if numbers_to_query = [] then throw QueryError.emptyInput
  else
    let rows ← copyNumbersToQuery numbers_to_query
    pure (rows.map (resolveRow tb_numeracao tb_historico tb_prestadoras ref_date))

/-! ### Behaviour of the portability lateral subquery -/

/-- The match condition of the history lateral subquery. -/
def upMatch (q : NtqRow) (ref_date : Nat) (r : HistoricoRow) : Prop :=
  r.cn = q.cn ∧ r.tn_inicial = q.nu_terminal ∧ r.data_agendamento ≤ ref_date

instance (q : NtqRow) (ref_date : Nat) (r : HistoricoRow) :
    Decidable (upMatch q ref_date r) := by
  unfold upMatch
  infer_instance

theorem upLookup_eq_foldl (tb : List HistoricoRow) (q : NtqRow) (ref_date : Nat) :
    upLookup tb q ref_date = tb.foldl (fun acc r =>
      if upMatch q ref_date r then
        match acc with
        | none => some r
        | some b => if b.data_agendamento < r.data_agendamento then some r else some b
      else acc) none := rfl

theorem upLookup_go_spec (q : NtqRow) (ref_date : Nat) (tb : List HistoricoRow) :
    ∀ (acc : Option HistoricoRow) (w : HistoricoRow),
      tb.foldl (fun acc r =>
        if upMatch q ref_date r then
          match acc with
          | none => some r
          | some b => if b.data_agendamento < r.data_agendamento then some r else some b
        else acc) acc = some w →
      (acc = some w ∨ (w ∈ tb ∧ upMatch q ref_date w)) ∧
      (∀ b, acc = some b → b.data_agendamento ≤ w.data_agendamento) ∧
      (∀ r ∈ tb, upMatch q ref_date r → r.data_agendamento ≤ w.data_agendamento) := by
  induction tb with
  | nil =>
    intro acc w h
    simp only [List.foldl_nil] at h
    exact ⟨Or.inl h, fun b hb => by rw [hb] at h; injection h with h; rw [h], by simp⟩
  | cons r rest ih =>
    intro acc w h
    simp only [List.foldl_cons] at h
    by_cases hm : upMatch q ref_date r
    · rw [if_pos hm] at h
      cases acc with
      | none =>
        have hspec := ih (some r) w h
        refine ⟨?_, by simp, ?_⟩
        · rcases hspec.1 with h1 | h1
          · injection h1 with h1
            exact Or.inr ⟨by simp [← h1], by rw [← h1]; exact hm⟩
          · exact Or.inr ⟨List.mem_cons_of_mem _ h1.1, h1.2⟩
        · intro s hs hms
          rcases List.mem_cons.mp hs with h2 | h2
          · rw [h2]
            exact hspec.2.1 r rfl
          · exact hspec.2.2 s h2 hms
      | some b =>
        dsimp only at h
        by_cases hlt : b.data_agendamento < r.data_agendamento
        · rw [if_pos hlt] at h
          have hspec := ih (some r) w h
          refine ⟨?_, ?_, ?_⟩
          · rcases hspec.1 with h1 | h1
            · injection h1 with h1
              exact Or.inr ⟨by simp [← h1], by rw [← h1]; exact hm⟩
            · exact Or.inr ⟨List.mem_cons_of_mem _ h1.1, h1.2⟩
          · intro b' hb'
            injection hb' with hb'
            subst hb'
            have := hspec.2.1 r rfl
            omega
          · intro s hs hms
            rcases List.mem_cons.mp hs with h2 | h2
            · rw [h2]
              exact hspec.2.1 r rfl
            · exact hspec.2.2 s h2 hms
        · rw [if_neg hlt] at h
          have hspec := ih (some b) w h
          refine ⟨?_, ?_, ?_⟩
          · rcases hspec.1 with h1 | h1
            · exact Or.inl h1
            · exact Or.inr ⟨List.mem_cons_of_mem _ h1.1, h1.2⟩
          · exact hspec.2.1
          · intro s hs hms
            rcases List.mem_cons.mp hs with h2 | h2
            · have := hspec.2.1 b rfl
              rw [h2]
              omega
            · exact hspec.2.2 s h2 hms
    · rw [if_neg hm] at h
      have hspec := ih acc w h
      refine ⟨?_, hspec.2.1, ?_⟩
      · rcases hspec.1 with h1 | h1
        · exact Or.inl h1
        · exact Or.inr ⟨List.mem_cons_of_mem _ h1.1, h1.2⟩
      · intro s hs hms
        rcases List.mem_cons.mp hs with h2 | h2
        · rw [h2] at hms
          exact absurd hms hm
        · exact hspec.2.2 s h2 hms

theorem upLookup_filter (tb : List HistoricoRow) (q : NtqRow) (ref_date : Nat) :
    upLookup tb q ref_date =
      upLookup (tb.filter (fun r => r.data_agendamento ≤ ref_date)) q ref_date := by
  rw [upLookup_eq_foldl, upLookup_eq_foldl]
  generalize (none : Option HistoricoRow) = acc
  induction tb generalizing acc with
  | nil => rfl
  | cons r rest ih =>
    by_cases hle : r.data_agendamento ≤ ref_date
    · rw [List.foldl_cons, List.filter_cons_of_pos (by simpa using hle), List.foldl_cons]
      exact ih _
    · have hm : ¬ upMatch q ref_date r := fun hc => hle hc.2.2
      rw [List.foldl_cons, if_neg hm, List.filter_cons_of_neg (by simpa using hle)]
      exact ih acc

/-- Claim C1: the portability lateral subquery selects the history record
matching `(cn, tn_inicial)` with the greatest `data_agendamento` on or
before the reference date; records dated after the reference date never
affect the lookup; when a record is found the output carrier name is looked
up from its `cod_receptora` (overriding the numbering-plan carrier) and
`ind_portado` is 1, otherwise `ind_portado` is 0. -/
theorem C1_point_in_time_resolution (tb_numeracao : List NumeracaoRow)
    (tb_historico : List HistoricoRow) (tb_prestadoras : List PrestadoraRow)
    (q : NtqRow) (ref_date : Nat) :
    (upLookup tb_historico q ref_date =
      upLookup (tb_historico.filter (fun r => r.data_agendamento ≤ ref_date)) q ref_date)
    ∧ (∀ w, upLookup tb_historico q ref_date = some w →
        w ∈ tb_historico ∧ w.cn = q.cn ∧ w.tn_inicial = q.nu_terminal ∧
        w.data_agendamento ≤ ref_date ∧
        (∀ r ∈ tb_historico, r.cn = q.cn → r.tn_inicial = q.nu_terminal →
          r.data_agendamento ≤ ref_date → r.data_agendamento ≤ w.data_agendamento) ∧
        (resolveRow tb_numeracao tb_historico tb_prestadoras ref_date q).ind_portado = 1 ∧
        (resolveRow tb_numeracao tb_historico tb_prestadoras ref_date q).nome_prestadora =
          (tb_prestadoras.find? (fun p => p.cod_prestadora = w.cod_receptora)).bind
            PrestadoraRow.nome_prestadora)
    ∧ (upLookup tb_historico q ref_date = none →
        (resolveRow tb_numeracao tb_historico tb_prestadoras ref_date q).ind_portado = 0) := by
  refine ⟨upLookup_filter tb_historico q ref_date, ?_, ?_⟩
  · intro w hw
    have hspec := upLookup_go_spec q ref_date tb_historico none w hw
    have hmem : w ∈ tb_historico ∧ upMatch q ref_date w := by
      rcases hspec.1 with h1 | h1
      · exact absurd h1 (by simp)
      · exact h1
    refine ⟨hmem.1, hmem.2.1, hmem.2.2.1, hmem.2.2.2, ?_, ?_, ?_⟩
    · intro r hr h1 h2 h3
      exact hspec.2.2 r hr ⟨h1, h2, h3⟩
    · simp [resolveRow, hw]
    · simp [resolveRow, hw, Option.orElse]
  · intro hnone
    simp [resolveRow, hnone]

/-- Witness for `C1_point_in_time_resolution` at a concrete table state: a
history record on the reference date wins over an earlier one, and a record
dated after the reference date is ignored. -/
theorem C1_point_in_time_resolution_witness :
    let q : NtqRow := { nu_terminal := 11987654321, cn := 11, prefixo := 98765 }
    let rOld : HistoricoRow :=
      { tn_inicial := 11987654321, numero_bp := 1, data_agendamento := 50,
        cod_receptora := 7, cod_doadora := 3, cod_status := some 1,
        ind_portar_origem := some 0, cn := 11, nome_arquivo := ('a' :: []) }
    let rNew : HistoricoRow := { rOld with data_agendamento := 100, cod_receptora := 9 }
    let rFuture : HistoricoRow := { rOld with data_agendamento := 200, cod_receptora := 4 }
    let tb := [rOld, rNew, rFuture]
    rNew ∈ tb ∧ rNew.data_agendamento ≤ 100 ∧
      (resolveRow [] tb [] 100 q).ind_portado = 1 := by
  intro q rOld rNew rFuture tb
  have h := (C1_point_in_time_resolution [] tb [] q 100).2.1 rNew (by decide)
  exact ⟨h.1, h.2.2.2.1, h.2.2.2.2.2.1⟩

/-! ### Derived area code and prefix (claim C5) -/

/-- Modelled from the spec: the builder of the target numbering-plan table
`tb_numeracao` is not under src (src only contains the staging import of
`_abr_numeracao.py`), so its contents are constrained from the spec's data
model, whose glossary defines the area code (CN) of a numbering-plan entry
as a two-digit code.  In particular the table never holds the sentinel
`-1`. -/
def wf_tb_numeracao (tb : List NumeracaoRow) : Prop :=
  ∀ r ∈ tb, 10 ≤ r.cn ∧ r.cn ≤ 99

theorem all_digits_of_subset {s t : List Char} (hsub : t ⊆ s)
    (hs : s.all Char.isDigit = true) : t.all Char.isDigit = true := by
  rw [List.all_eq_true] at hs ⊢
  exact fun x hx => hs x (hsub hx)

/-- Claim C5: a query number of length 10 yields a 2-digit area code and a
4-digit prefix, one of length 11 a 2-digit area code and a 5-digit prefix,
and any other length the sentinel `-1` for both; the sentinel matches no
numbering-plan row of a well-formed table, so `ind_designado` is 0. -/
theorem C5_sentinel_and_derivation :
    (∀ s : List Char, s.all Char.isDigit = true →
      (s.length = 10 →
        cnField s = s.take 2 ∧ (cnField s).length = 2 ∧
        parseInt? (cnField s) = some ((parseDigits (s.take 2) : Nat) : Int) ∧
        prefixoField s = (s.drop 2).take 4 ∧ (prefixoField s).length = 4 ∧
        parseInt? (prefixoField s) = some ((parseDigits ((s.drop 2).take 4) : Nat) : Int)) ∧
      (s.length = 11 →
        cnField s = s.take 2 ∧ (cnField s).length = 2 ∧
        parseInt? (cnField s) = some ((parseDigits (s.take 2) : Nat) : Int) ∧
        prefixoField s = (s.drop 2).take 5 ∧ (prefixoField s).length = 5 ∧
        parseInt? (prefixoField s) = some ((parseDigits ((s.drop 2).take 5) : Nat) : Int)) ∧
      (s.length ≠ 10 → s.length ≠ 11 →
        cnField s = ['-', '1'] ∧ prefixoField s = ['-', '1'] ∧
        parseInt? (cnField s) = some (-1) ∧ parseInt? (prefixoField s) = some (-1)))
    ∧ (∀ (tb_numeracao : List NumeracaoRow) (q : NtqRow),
        wf_tb_numeracao tb_numeracao → q.cn = -1 →
        tnLookup tb_numeracao q = none ∧
        ∀ (tb_historico : List HistoricoRow) (tb_prestadoras : List PrestadoraRow)
          (ref_date : Nat),
          (resolveRow tb_numeracao tb_historico tb_prestadoras ref_date q).ind_designado = 0) := by
  constructor
  · intro s hdig
    refine ⟨?_, ?_, ?_⟩
    · intro h10
      have hcn : cnField s = s.take 2 := by simp [cnField, h10]
      have hpf : prefixoField s = (s.drop 2).take 4 := by simp [prefixoField, h10]
      have hcl : (s.take 2).length = 2 := by simp [List.length_take]; omega
      have hpl : ((s.drop 2).take 4).length = 4 := by
        simp [List.length_take, List.length_drop]; omega
      have hcd := all_digits_of_subset (List.take_subset 2 s) hdig
      have hpd := all_digits_of_subset
        (fun x hx => List.drop_subset 2 s (List.take_subset 4 (s.drop 2) hx)) hdig
      refine ⟨hcn, by rw [hcn]; exact hcl, ?_, hpf, by rw [hpf]; exact hpl, ?_⟩
      · rw [hcn]
        exact parseInt?_of_digits _ (by intro hnil; rw [hnil] at hcl; simp at hcl) hcd
      · rw [hpf]
        exact parseInt?_of_digits _ (by intro hnil; rw [hnil] at hpl; simp at hpl) hpd
    · intro h11
      have hcn : cnField s = s.take 2 := by simp [cnField, h11]
      have hpf : prefixoField s = (s.drop 2).take 5 := by simp [prefixoField, h11]
      have hcl : (s.take 2).length = 2 := by simp [List.length_take]; omega
      have hpl : ((s.drop 2).take 5).length = 5 := by
        simp [List.length_take, List.length_drop]; omega
      have hcd := all_digits_of_subset (List.take_subset 2 s) hdig
      have hpd := all_digits_of_subset
        (fun x hx => List.drop_subset 2 s (List.take_subset 5 (s.drop 2) hx)) hdig
      refine ⟨hcn, by rw [hcn]; exact hcl, ?_, hpf, by rw [hpf]; exact hpl, ?_⟩
      · rw [hcn]
        exact parseInt?_of_digits _ (by intro hnil; rw [hnil] at hcl; simp at hcl) hcd
      · rw [hpf]
        exact parseInt?_of_digits _ (by intro hnil; rw [hnil] at hpl; simp at hpl) hpd
    · intro h10 h11
      have hcn : cnField s = ['-', '1'] := by simp [cnField, h10, h11]
      have hpf : prefixoField s = ['-', '1'] := by simp [prefixoField, h10, h11]
      exact ⟨hcn, hpf, by rw [hcn]; decide, by rw [hpf]; decide⟩
  · intro tb q hwf hq
    have htn : tnLookup tb q = none := by
      rw [tnLookup, List.find?_eq_none]
      intro r hr hc
      have h1 : r.cn = q.cn := of_decide_eq_true (by
        simp only [decide_eq_true_eq] at hc ⊢
        exact hc.1)
      have h2 := (hwf r hr).1
      rw [hq] at h1
      omega
    refine ⟨htn, ?_⟩
    intro tb_historico tb_prestadoras ref_date
    simp [resolveRow, htn]

/-- Witness for `C5_sentinel_and_derivation` on concrete inputs of lengths
10, 11 and 7, and a concrete well-formed numbering-plan table. -/
theorem C5_sentinel_and_derivation_witness :
    (cnField ("1138765432".toList) = "11".toList ∧
      prefixoField ("1138765432".toList) = "3876".toList) ∧
    (cnField ("11987654321".toList) = "11".toList ∧
      prefixoField ("11987654321".toList) = "98765".toList) ∧
    parseInt? (cnField ("1234567".toList)) = some (-1) ∧
    (resolveRow
      [{ cod_prestadora := 5, cn := 12, prefixo := 34567, faixa_inicial := 0, faixa_final := 9999999 }]
      [] [] 0 { nu_terminal := 1234567, cn := -1, prefixo := -1 }).ind_designado = 0 := by
  have h1 := (C5_sentinel_and_derivation.1 ("1138765432".toList) (by decide)).1 (by decide)
  have h2 := ((C5_sentinel_and_derivation.1 ("11987654321".toList) (by decide)).2.1) (by decide)
  have h3 := ((C5_sentinel_and_derivation.1 ("1234567".toList) (by decide)).2.2)
    (by decide) (by decide)
  have h4 := C5_sentinel_and_derivation.2
    [{ cod_prestadora := 5, cn := 12, prefixo := 34567, faixa_inicial := 0, faixa_final := 9999999 }]
    { nu_terminal := 1234567, cn := -1, prefixo := -1 }
    (by intro r hr; simp at hr; rw [hr]; exact ⟨by decide, by decide⟩) rfl
  exact ⟨⟨h1.1, h1.2.2.2.1⟩, ⟨h2.1, h2.2.2.2.1⟩, h3.2.2.1, h4.2 [] [] 0⟩

/-! ### Output order and duplicate handling (claim C4) -/

/-- Claim C4 evaluated on the code: the resolution pipeline has no `ORDER BY`
and does not deduplicate its input.  A duplicated input number violates the
scratch table's primary key during `COPY`, so the call fails instead of
deduplicating, and a batch given in descending order comes back in input
order, which is not ascending. -/
theorem C4_code_no_order_no_dedup :
    (query_numbers_carriers [] [] [] [("11987654321".toList), ("11987654321".toList)] 0
      = Except.error QueryError.uniqueViolation)
    ∧ ((query_numbers_carriers [] [] [] [("21987654321".toList), ("11987654321".toList)] 0).map
        (fun rows => rows.map ResultRow.nu_terminal)
        = Except.ok [(21987654321 : Int), 11987654321])
    ∧ ¬ List.Sorted (fun a b => a ≤ b) [(21987654321 : Int), 11987654321] := by
  refine ⟨by decide, by decide, ?_⟩
  intro hs
  have := List.rel_of_sorted_cons hs 11987654321 (by simp)
  omega

/-! ## Date validation

Shallow embedding of `QueryABRDataBase.validate_date` in `_abr_database.py`.
CPython's `strptime(date_str, "%Y%m%d")` on an 8-character string succeeds
exactly when the string is 8 digits splitting as YYYY MM DD into a valid
proleptic-Gregorian calendar date with year 1-9999; `int(date_str)` is the
digit value (leading zeros stripped). -/

inductive DateError where
  | typeError
  | nonDigitString
  | badLength
  | badCalendar
deriving DecidableEq

def isLeapYear (y : Nat) : Bool := y % 4 = 0 && (y % 100 ≠ 0 || y % 400 = 0)

def daysInMonth (y m : Nat) : Nat :=
  if m = 2 then (if isLeapYear y then 29 else 28)
  else if m = 4 ∨ m = 6 ∨ m = 9 ∨ m = 11 then 30
  else 31

/-- Calendar validity as checked by `datetime.strptime(s, "%Y%m%d")`. -/
def validYMD (y m d : Nat) : Bool :=
  1 ≤ y && y ≤ 9999 && 1 ≤ m && m ≤ 12 && 1 ≤ d && d ≤ daysInMonth y m

/-- The length check and strptime parse shared by both input types
(`_abr_database.py` lines 174-186). -/
def validate_date_checks (date_str : List Char) : Except DateError Int :=
  if date_str.length ≠ 8 then Except.error DateError.badLength
  else if ¬ date_str.all Char.isDigit then Except.error DateError.badCalendar
  else
    let y := parseDigits (date_str.take 4)
    let m := parseDigits ((date_str.drop 4).take 2)
    let d := parseDigits (date_str.drop 6)
    if validYMD y m d then Except.ok ((parseDigits date_str : Nat) : Int)
    else Except.error DateError.badCalendar

/-- `validate_date` on a string input: Python's `str.isdigit` is false on
the empty string and on any non-digit character. -/
def validate_date_ofString (s : List Char) : Except DateError Int :=
  if s ≠ [] ∧ s.all Char.isDigit then validate_date_checks s
  else Except.error DateError.nonDigitString

/-- `validate_date` on an integer input: the integer is rendered with
`str(...)` and then checked. -/
def validate_date_ofInt (n : Int) : Except DateError Int :=
  validate_date_checks (intReprL n)

/-- Claim C6 counterexample: `"09991225"` is an 8-character numeric string
for the real calendar date 0999-12-25; the string path accepts it and
returns 9991225, but the equivalent integer 9991225 is rejected (its
decimal text has 7 digits), so the two paths do not agree. -/
theorem C6_counterexample_leading_zero :
    (("09991225".toList).length = 8 ∧ ("09991225".toList).all Char.isDigit = true ∧
      validYMD 999 12 25 = true) ∧
    validate_date_ofString ("09991225".toList) = Except.ok 9991225 ∧
    validate_date_ofInt 9991225 = Except.error DateError.badLength := by
  refine ⟨by decide, by decide, ?_⟩
  have h : intReprL 9991225 = "9991225".toList := by
    rw [intReprL, if_neg (by omega)]
    simp only [natReprL]
    decide
  rw [validate_date_ofInt, h]
  decide

/-- Claim C6 as amended: agreement between the two input paths holds for
every date whose decimal text is itself 8 characters (no leading zero);
non-digit or empty strings, strings of other lengths and calendar-invalid
8-digit strings are rejected as the claim states. -/
theorem C6_validate_date_amended :
    (∀ n : Nat, (natReprL n).length = 8 →
      validate_date_ofInt (n : Int) = validate_date_ofString (natReprL n))
    ∧ (∀ s : List Char, (s = [] ∨ ¬ s.all Char.isDigit) →
      validate_date_ofString s = Except.error DateError.nonDigitString)
    ∧ (∀ s : List Char, s ≠ [] → s.all Char.isDigit = true → s.length ≠ 8 →
      validate_date_ofString s = Except.error DateError.badLength)
    ∧ (∀ s : List Char, s ≠ [] → s.all Char.isDigit = true → s.length = 8 →
      validYMD (parseDigits (s.take 4)) (parseDigits ((s.drop 4).take 2))
        (parseDigits (s.drop 6)) = false →
      validate_date_ofString s = Except.error DateError.badCalendar) := by
  refine ⟨?_, ?_, ?_, ?_⟩
  · intro n hlen
    have hrepr : intReprL (n : Int) = natReprL n := by
      rw [intReprL, if_neg (by omega)]
      simp
    rw [validate_date_ofInt, hrepr, validate_date_ofString,
      if_pos ⟨natReprL_ne_nil n, natReprL_all_digits n⟩]
  · intro s hs
    rw [validate_date_ofString, if_neg]
    rcases hs with h | h
    · intro hc
      exact hc.1 h
    · intro hc
      exact h hc.2
  · intro s hne hdig hlen
    rw [validate_date_ofString, if_pos ⟨hne, hdig⟩, validate_date_checks, if_pos hlen]
  · intro s hne hdig hlen hbad
    rw [validate_date_ofString, if_pos ⟨hne, hdig⟩, validate_date_checks,
      if_neg (by omega), if_neg (by rw [hdig]; simp)]
    simp only [hbad]
    rfl

/-- Witness for `C6_validate_date_amended` on concrete inputs: 20231225 as
integer and string agree; `"2023-12-25"`, `"2023125"` and `"20231301"` are
rejected. -/
theorem C6_validate_date_amended_witness :
    validate_date_ofInt 20231225 = validate_date_ofString ("20231225".toList) ∧
    validate_date_ofString ("2023-12-25".toList) = Except.error DateError.nonDigitString ∧
    validate_date_ofString ("2023125".toList) = Except.error DateError.badLength ∧
    validate_date_ofString ("20231301".toList) = Except.error DateError.badCalendar := by
  refine ⟨?_, ?_, ?_, ?_⟩
  · have h := C6_validate_date_amended.1 20231225 (by
      simp only [natReprL]
      decide)
    have hrepr : natReprL 20231225 = "20231225".toList := by
      simp only [natReprL]
      decide
    calc validate_date_ofInt 20231225
        = validate_date_ofString (natReprL 20231225) := h
      _ = validate_date_ofString ("20231225".toList) := by rw [hrepr]
  · exact C6_validate_date_amended.2.1 ("2023-12-25".toList) (Or.inr (by decide))
  · exact C6_validate_date_amended.2.2.1 ("2023125".toList) (by decide) (by decide) (by decide)
  · exact C6_validate_date_amended.2.2.2 ("20231301".toList) (by decide) (by decide)
      (by decide) (by decide)

/-! ## History Consolidator

Shallow embedding of `UPDATE_TB_PORTABILIDADE_HISTORICO` in
`_abr_portabilidade_sql_queries.py`: `SELECT DISTINCT ON (tn_inicial,
data_agendamento::date) ... ORDER BY tn_inicial, data_agendamento,
nome_arquivo DESC` over the staging table, inserted into the history table
with `ON CONFLICT ... DO UPDATE` on the primary key `(cn, tn_inicial,
data_agendamento)`.

A staging table is a list of rows in physical (load) order; `DISTINCT ON`
keeps, for each key, the first row of the sort order, i.e. the row with the
greatest `nome_arquivo`, and among rows tied on the full sort key the one
scanned first. -/

/-- Row of the staging table `abr_portabilidade` (`CREATE_IMPORT_TABLE`).
`data_agendamento` is a `TIMESTAMP`, modelled as seconds. -/
structure ImportRow where
  tipo_registro : Option Int
  numero_bp : Int
  tn_inicial : Int
  cod_receptora : Option Int
  nome_receptora : Option (List Char)
  cod_doadora : Option Int
  nome_doadora : Option (List Char)
  data_agendamento : Nat
  cod_status : Option Int
  status : Option (List Char)
  ind_portar_origem : Option Int
  nome_arquivo : List Char
deriving DecidableEq

/-- `TIMESTAMP::date` truncation, with a date as a day number. -/
def tsDate (ts : Nat) : Nat := ts / 86400

/-- `CAST(SUBSTRING(tn_inicial::TEXT, 1, 2) AS SMALLINT)`.  The cast cannot
fail on the first characters of an integer's text, so the `getD` default is
unreachable. -/
def cn_from_tn (tn : Int) : Int := (parseInt? ((intReprL tn).take 2)).getD 0

/-- The `(tn_inicial, data_agendamento::date)` key of `DISTINCT ON`. -/
def rowKey (r : ImportRow) : Int × Nat := (r.tn_inicial, tsDate r.data_agendamento)

/-- Strict lexicographic comparison of `VARCHAR` values as used by
`ORDER BY nome_arquivo DESC` (byte-wise collation). -/
def strLtB (a b : List Char) : Bool :=
  match a, b with
  | [], [] => false
  | [], _ :: _ => true
  | _ :: _, [] => false
  | x :: xs, y :: ys => x.toNat < y.toNat || (x.toNat = y.toNat && strLtB xs ys)

theorem strLtB_irrefl (a : List Char) : strLtB a a = false := by
  induction a with
  | nil => rfl
  | cons x xs ih => simp [strLtB, ih]

theorem strLtB_trans {a b c : List Char} (h₁ : strLtB a b = true)
    (h₂ : strLtB b c = true) : strLtB a c = true := by
  induction a generalizing b c with
  | nil =>
    cases b with
    | nil => exact absurd h₁ (by simp [strLtB])
    | cons y ys =>
      cases c with
      | nil => exact absurd h₂ (by simp [strLtB])
      | cons z zs => simp [strLtB]
  | cons x xs ih =>
    cases b with
    | nil => exact absurd h₁ (by simp [strLtB])
    | cons y ys =>
      cases c with
      | nil => exact absurd h₂ (by simp [strLtB])
      | cons z zs =>
        simp only [strLtB, Bool.or_eq_true, Bool.and_eq_true, decide_eq_true_eq] at h₁ h₂ ⊢
        rcases h₁ with h₁ | ⟨he₁, h₁⟩
        · rcases h₂ with h₂ | ⟨he₂, h₂⟩
          · exact Or.inl (by omega)
          · exact Or.inl (by omega)
        · rcases h₂ with h₂ | ⟨he₂, h₂⟩
          · exact Or.inl (by omega)
          · exact Or.inr ⟨by omega, ih h₁ h₂⟩

theorem strLtB_not_trans {a b c : List Char} (h₁ : strLtB a b = false)
    (h₂ : strLtB b c = false) : strLtB a c = false := by
  induction a generalizing b c with
  | nil =>
    cases b with
    | nil =>
      cases c with
      | nil => rfl
      | cons z zs => exact absurd h₂ (by simp [strLtB])
    | cons y ys => exact absurd h₁ (by simp [strLtB])
  | cons x xs ih =>
    cases b with
    | nil =>
      cases c with
      | nil => simp [strLtB]
      | cons z zs => exact absurd h₂ (by simp [strLtB])
    | cons y ys =>
      cases c with
      | nil => simp [strLtB]
      | cons z zs =>
        simp only [strLtB, Bool.or_eq_false_iff, Bool.and_eq_false_iff,
          decide_eq_false_iff_not, decide_eq_true_eq] at h₁ h₂ ⊢
        refine ⟨by omega, ?_⟩
        rcases h₁.2 with h₁' | h₁'
        · exact Or.inl (by omega)
        · rcases h₂.2 with h₂' | h₂'
          · exact Or.inl (by omega)
          · exact Or.inr (ih h₁' h₂')

theorem char_toNat_inj {x y : Char} (h : x.toNat = y.toNat) : x = y := by
  apply Char.ext
  exact UInt32.ext h

theorem strLtB_total {a b : List Char} (h : a ≠ b) :
    strLtB a b = true ∨ strLtB b a = true := by
  induction a generalizing b with
  | nil =>
    cases b with
    | nil => exact absurd rfl h
    | cons y ys => exact Or.inl (by simp [strLtB])
  | cons x xs ih =>
    cases b with
    | nil => exact Or.inr (by simp [strLtB])
    | cons y ys =>
      by_cases he : x.toNat = y.toNat
      · have hxy : x = y := char_toNat_inj he
        have hne : xs ≠ ys := by
          intro hc
          exact h (by rw [hxy, hc])
        rcases ih hne with h1 | h1
        · exact Or.inl (by simp [strLtB, he, h1])
        · exact Or.inr (by simp [strLtB, he.symm, h1])
      · rcases Nat.lt_or_ge x.toNat y.toNat with h1 | h1
        · exact Or.inl (by simp [strLtB, h1])
        · exact Or.inr (by simp [strLtB]; omega)

/-- Fold step of `DISTINCT ON`: keep the current candidate unless the new
row's `nome_arquivo` is strictly greater (`ORDER BY nome_arquivo DESC`);
rows tied on the full sort key are kept in scan order. -/
def pickWinner (acc : Option ImportRow) (r : ImportRow) : Option ImportRow :=
  match acc with
  | none => some r
  | some b => if strLtB b.nome_arquivo r.nome_arquivo then some r else some b

/-- The `DISTINCT ON` winner for one `(tn_inicial, date)` key. -/
def selectWinner (staging : List ImportRow) (k : Int × Nat) : Option ImportRow :=
  (staging.filter (fun r => decide (rowKey r = k))).foldl pickWinner none

theorem pickWinner_go_spec (l : List ImportRow) :
    ∀ (acc : Option ImportRow) (w : ImportRow), l.foldl pickWinner acc = some w →
      (acc = some w ∨ w ∈ l) ∧
      (∀ r ∈ l, strLtB w.nome_arquivo r.nome_arquivo = false) ∧
      (∀ b, acc = some b → strLtB w.nome_arquivo b.nome_arquivo = false) := by
  induction l with
  | nil =>
    intro acc w h
    simp only [List.foldl_nil] at h
    refine ⟨Or.inl h, by simp, ?_⟩
    intro b hb
    rw [h] at hb
    injection hb with hb
    rw [hb]
    exact strLtB_irrefl _
  | cons r rest ih =>
    intro acc w h
    simp only [List.foldl_cons] at h
    cases acc with
    | none =>
      have hspec := ih (some r) w h
      refine ⟨?_, ?_, by simp⟩
      · rcases hspec.1 with h1 | h1
        · injection h1 with h1
          exact Or.inr (by rw [h1]; exact List.mem_cons_self w rest)
        · exact Or.inr (List.mem_cons_of_mem _ h1)
      · intro s hs
        rcases List.mem_cons.mp hs with h2 | h2
        · rw [h2]
          exact hspec.2.2 r rfl
        · exact hspec.2.1 s h2
    | some b =>
      dsimp only [pickWinner] at h
      by_cases hlt : strLtB b.nome_arquivo r.nome_arquivo = true
      · rw [if_pos hlt] at h
        have hspec := ih (some r) w h
        have hwr : strLtB w.nome_arquivo r.nome_arquivo = false := hspec.2.2 r rfl
        refine ⟨?_, ?_, ?_⟩
        · rcases hspec.1 with h1 | h1
          · injection h1 with h1
            exact Or.inr (by rw [h1]; exact List.mem_cons_self w rest)
          · exact Or.inr (List.mem_cons_of_mem _ h1)
        · intro s hs
          rcases List.mem_cons.mp hs with h2 | h2
          · rw [h2]
            exact hwr
          · exact hspec.2.1 s h2
        · intro b' hb'
          injection hb' with hb'
          rw [← hb']
          cases hwb : strLtB w.nome_arquivo b.nome_arquivo with
          | false => rfl
          | true => exact absurd (strLtB_trans hwb hlt) (by rw [hwr]; simp)
      · rw [if_neg hlt] at h
        have hspec := ih (some b) w h
        have hwb : strLtB w.nome_arquivo b.nome_arquivo = false := hspec.2.2 b rfl
        have hbr : strLtB b.nome_arquivo r.nome_arquivo = false := by
          cases hx : strLtB b.nome_arquivo r.nome_arquivo with
          | false => rfl
          | true => exact absurd hx hlt
        refine ⟨?_, ?_, ?_⟩
        · rcases hspec.1 with h1 | h1
          · exact Or.inl h1
          · exact Or.inr (List.mem_cons_of_mem _ h1)
        · intro s hs
          rcases List.mem_cons.mp hs with h2 | h2
          · rw [h2]
            exact strLtB_not_trans hwb hbr
          · exact hspec.2.1 s h2
        · intro b' hb'
          injection hb' with hb'
          rw [← hb']
          exact hwb

theorem pickWinner_go_isSome (l : List ImportRow) :
    ∀ acc : Option ImportRow, acc.isSome ∨ l ≠ [] → (l.foldl pickWinner acc).isSome := by
  induction l with
  | nil =>
    intro acc h
    rcases h with h | h
    · exact h
    · exact absurd rfl h
  | cons r rest ih =>
    intro acc _
    rw [List.foldl_cons]
    apply ih
    cases acc with
    | none => exact Or.inl (by simp [pickWinner])
    | some b => exact Or.inl (by simp [pickWinner]; split <;> simp)

/-- Every property of a `selectWinner` result needed below: it is a staging
row of the requested key whose `nome_arquivo` is maximal among staging rows
of that key. -/
theorem selectWinner_spec (staging : List ImportRow) (k : Int × Nat)
    (w : ImportRow) (h : selectWinner staging k = some w) :
    w ∈ staging ∧ rowKey w = k ∧
      ∀ r ∈ staging, rowKey r = k → strLtB w.nome_arquivo r.nome_arquivo = false := by
  have hspec := pickWinner_go_spec _ none w h
  have hmem : w ∈ staging.filter (fun r => decide (rowKey r = k)) := by
    rcases hspec.1 with h1 | h1
    · exact absurd h1 (by simp)
    · exact h1
  have hw := List.mem_filter.mp hmem
  refine ⟨hw.1, by simpa using hw.2, ?_⟩
  intro r hr hk
  exact hspec.2.1 r (List.mem_filter.mpr ⟨hr, by simpa using hk⟩)

theorem selectWinner_isSome (staging : List ImportRow) (k : Int × Nat)
    (r : ImportRow) (hr : r ∈ staging) (hk : rowKey r = k) :
    (selectWinner staging k).isSome := by
  apply pickWinner_go_isSome
  refine Or.inr ?_
  intro hc
  have : r ∈ staging.filter (fun r => decide (rowKey r = k)) :=
    List.mem_filter.mpr ⟨hr, by simpa using hk⟩
  rw [hc] at this
  exact absurd this (by simp)

/-- The projection of a winning staging row into the history table
(`UPDATE_TB_PORTABILIDADE_HISTORICO` SELECT list): the event timestamp is
truncated to a date, missing carrier codes become `-1`, and `cn` is computed
from the decimal text of `tn_inicial`, not from any source-file column. -/
def toHistorico (r : ImportRow) : HistoricoRow :=
  { tn_inicial := r.tn_inicial
    numero_bp := r.numero_bp
    data_agendamento := tsDate r.data_agendamento
    cod_receptora := r.cod_receptora.getD (-1)
    cod_doadora := r.cod_doadora.getD (-1)
    cod_status := r.cod_status
    ind_portar_origem := r.ind_portar_origem
    cn := cn_from_tn r.tn_inicial
    nome_arquivo := r.nome_arquivo }

/-- The consolidated rows produced by the `port_entrada` CTE: one winner per
distinct `(tn_inicial, date)` key of the staging table. -/
def port_entrada (staging : List ImportRow) : List HistoricoRow :=
  ((staging.map rowKey).dedup).filterMap
    (fun k => (selectWinner staging k).map toHistorico)

/-- The primary key `(cn, tn_inicial, data_agendamento)` of the history
table. -/
def hkey (h : HistoricoRow) : Int × Int × Nat := (h.cn, h.tn_inicial, h.data_agendamento)

/-- `INSERT ... ON CONFLICT ON CONSTRAINT ..._pkey DO UPDATE SET ...` for a
single row: if the key is present the conflicting row's non-key columns are
all overwritten with the incoming values (so the whole row is replaced),
otherwise the row is appended. -/
def upsertRow (t : List HistoricoRow) (h : HistoricoRow) : List HistoricoRow :=
  if t.any (fun x => decide (hkey x = hkey h)) then
    t.map (fun x => if hkey x = hkey h then h else x)
  else t ++ [h]

/-- `_update_tb_portabilidade_historico`: the whole consolidation statement,
upserting every `port_entrada` winner into the history table. -/
def update_tb_portabilidade_historico (t : List HistoricoRow)
    (staging : List ImportRow) : List HistoricoRow :=
  (port_entrada staging).foldl upsertRow t

/-! ### Claim C2: the tie-break on `nome_arquivo` -/

/-- Claim C2 counterexample: two staging rows with the same
`(tn_inicial, eventDate)` key and the same source filename but different
payloads.  The two load orders are permutations of each other (same staging
contents) yet yield different consolidated winners, so the tie-break is not
determined by the staging contents alone. -/
theorem C2_counterexample_load_order :
    let r1 : ImportRow :=
      { tipo_registro := some 1, numero_bp := 7266080, tn_inicial := 2139838686,
        cod_receptora := some 123, nome_receptora := some ("TIM SA".toList),
        cod_doadora := some 121, nome_doadora := some ("EMBRATEL".toList),
        data_agendamento := 86400, cod_status := some 1, status := some ("Ativo".toList),
        ind_portar_origem := some 0, nome_arquivo := "A.csv".toList }
    let r2 : ImportRow := { r1 with cod_receptora := some 999, data_agendamento := 90000 }
    rowKey r1 = rowKey r2 ∧ r1.nome_arquivo = r2.nome_arquivo ∧
      List.Perm [r1, r2] [r2, r1] ∧
      selectWinner [r1, r2] (rowKey r1) = some r1 ∧
      selectWinner [r2, r1] (rowKey r1) = some r2 ∧
      r1 ≠ r2 := by
  intro r1 r2
  exact ⟨by decide, by decide, List.Perm.swap r2 r1 [], by decide, by decide, by decide⟩

/-- Claim C2 as amended: the consolidated winner for a key is always a
staging row of that key whose source filename is maximal among the rows of
that key; and whenever no two distinct rows of the key share a filename
(in particular whenever one row attains the maximal filename), the winner
is independent of the order in which the staging rows were loaded. -/
theorem C2_tiebreak_amended (staging staging' : List ImportRow) (k : Int × Nat)
    (hperm : List.Perm staging staging')
    (huniq : ∀ r ∈ staging, ∀ s ∈ staging, rowKey r = k → rowKey s = k →
      r.nome_arquivo = s.nome_arquivo → r = s) :
    (∀ w, selectWinner staging k = some w →
      w ∈ staging ∧ rowKey w = k ∧
      ∀ r ∈ staging, rowKey r = k → strLtB w.nome_arquivo r.nome_arquivo = false) ∧
    selectWinner staging k = selectWinner staging' k := by
  refine ⟨fun w hw => selectWinner_spec staging k w hw, ?_⟩
  cases hw1 : selectWinner staging k with
  | none =>
    cases hw2 : selectWinner staging' k with
    | none => rfl
    | some w2 =>
      exfalso
      have hs2 := selectWinner_spec staging' k w2 hw2
      have : (selectWinner staging k).isSome :=
        selectWinner_isSome staging k w2 (hperm.symm.subset hs2.1) hs2.2.1
      rw [hw1] at this
      exact absurd this (by simp)
  | some w1 =>
    cases hw2 : selectWinner staging' k with
    | none =>
      exfalso
      have hs1 := selectWinner_spec staging k w1 hw1
      have : (selectWinner staging' k).isSome :=
        selectWinner_isSome staging' k w1 (hperm.subset hs1.1) hs1.2.1
      rw [hw2] at this
      exact absurd this (by simp)
    | some w2 =>
      have hs1 := selectWinner_spec staging k w1 hw1
      have hs2 := selectWinner_spec staging' k w2 hw2
      have hw2mem : w2 ∈ staging := hperm.symm.subset hs2.1
      have h12 : strLtB w1.nome_arquivo w2.nome_arquivo = false :=
        hs1.2.2 w2 hw2mem hs2.2.1
      have h21 : strLtB w2.nome_arquivo w1.nome_arquivo = false :=
        hs2.2.2 w1 (hperm.subset hs1.1) hs1.2.1
      by_cases heq : w1.nome_arquivo = w2.nome_arquivo
      · rw [huniq w1 hs1.1 w2 hw2mem hs1.2.1 hs2.2.1 heq]
      · rcases strLtB_total heq with h | h
        · rw [h] at h12
          exact absurd h12 (by simp)
        · rw [h] at h21
          exact absurd h21 (by simp)

/-- Witness for `C2_tiebreak_amended`: two rows of the same key from files
`A.csv` and `B.csv`; both load orders give the `B.csv` row. -/
theorem C2_tiebreak_amended_witness :
    let rA : ImportRow :=
      { tipo_registro := some 1, numero_bp := 7266080, tn_inicial := 2139838686,
        cod_receptora := some 123, nome_receptora := some ("TIM SA".toList),
        cod_doadora := some 121, nome_doadora := some ("EMBRATEL".toList),
        data_agendamento := 86400, cod_status := some 1, status := some ("Ativo".toList),
        ind_portar_origem := some 0, nome_arquivo := "A.csv".toList }
    let rB : ImportRow := { rA with cod_receptora := some 999, nome_arquivo := "B.csv".toList }
    selectWinner [rA, rB] (rowKey rA) = selectWinner [rB, rA] (rowKey rA) ∧
      selectWinner [rA, rB] (rowKey rA) = some rB := by
  intro rA rB
  have h := C2_tiebreak_amended [rA, rB] [rB, rA] (rowKey rA)
    (List.Perm.swap rB rA []) (by decide)
  exact ⟨h.2, by decide⟩

/-! ### Claim C3: idempotence of the consolidation upsert -/

def hasKeyB (t : List HistoricoRow) (k : Int × Int × Nat) : Bool :=
  t.any (fun x => decide (hkey x = k))

theorem upsertRow_eq (t : List HistoricoRow) (h : HistoricoRow) :
    upsertRow t h = if hasKeyB t (hkey h) then
      t.map (fun x => if hkey x = hkey h then h else x) else t ++ [h] := rfl

theorem hasKeyB_upsertRow_self (t : List HistoricoRow) (h : HistoricoRow) :
    hasKeyB (upsertRow t h) (hkey h) = true := by
  rw [upsertRow_eq]
  by_cases hc : hasKeyB t (hkey h) = true
  · rw [if_pos hc]
    rw [hasKeyB, List.any_eq_true] at hc ⊢
    obtain ⟨x, hx, hxe⟩ := hc
    refine ⟨h, ?_, by simp⟩
    exact List.mem_map.mpr ⟨x, hx, by rw [if_pos (by simpa using hxe)]⟩
  · rw [if_neg hc, hasKeyB, List.any_eq_true]
    exact ⟨h, by simp, by simp⟩

theorem hasKeyB_upsertRow_mono (t : List HistoricoRow) (h : HistoricoRow)
    (k : Int × Int × Nat) (hk : hasKeyB t k = true) :
    hasKeyB (upsertRow t h) k = true := by
  rw [upsertRow_eq]
  rw [hasKeyB, List.any_eq_true] at hk
  obtain ⟨x, hx, hxe⟩ := hk
  by_cases hc : hasKeyB t (hkey h) = true
  · rw [if_pos hc, hasKeyB, List.any_eq_true]
    by_cases hxh : hkey x = hkey h
    · refine ⟨h, List.mem_map.mpr ⟨x, hx, by rw [if_pos hxh]⟩, ?_⟩
      simp only [decide_eq_true_eq] at hxe ⊢
      rw [← hxh, hxe]
    · exact ⟨x, List.mem_map.mpr ⟨x, hx, by rw [if_neg hxh]⟩, hxe⟩
  · rw [if_neg hc, hasKeyB, List.any_eq_true]
    exact ⟨x, List.mem_append_left _ hx, hxe⟩

theorem upsertRow_self_key (t : List HistoricoRow) (h : HistoricoRow) :
    ∀ x ∈ upsertRow t h, hkey x = hkey h → x = h := by
  intro x hx hkx
  rw [upsertRow_eq] at hx
  by_cases hc : hasKeyB t (hkey h) = true
  · rw [if_pos hc] at hx
    obtain ⟨y, _, hy⟩ := List.mem_map.mp hx
    by_cases hyh : hkey y = hkey h
    · rw [if_pos hyh] at hy
      exact hy.symm
    · rw [if_neg hyh] at hy
      exact absurd (show hkey y = hkey h from by rw [hy]; exact hkx) hyh
  · rw [if_neg hc] at hx
    rcases List.mem_append.mp hx with hx' | hx'
    · exfalso
      rw [hasKeyB] at hc
      simp only [List.any_eq_true, decide_eq_true_eq, not_exists, not_and] at hc
      exact hc x hx' hkx
    · simpa using hx'

theorem upsertRow_other_key (t : List HistoricoRow) (h : HistoricoRow)
    (k : Int × Int × Nat) (v : HistoricoRow) (hne : hkey h ≠ k)
    (hall : ∀ x ∈ t, hkey x = k → x = v) :
    ∀ x ∈ upsertRow t h, hkey x = k → x = v := by
  intro x hx hkx
  rw [upsertRow_eq] at hx
  by_cases hc : hasKeyB t (hkey h) = true
  · rw [if_pos hc] at hx
    obtain ⟨y, hy, hye⟩ := List.mem_map.mp hx
    by_cases hyh : hkey y = hkey h
    · rw [if_pos hyh] at hye
      rw [← hye] at hkx
      exact absurd hkx hne
    · rw [if_neg hyh] at hye
      rw [← hye]
      exact hall y hy (by rw [hye]; exact hkx)
  · rw [if_neg hc] at hx
    rcases List.mem_append.mp hx with hx' | hx'
    · exact hall x hx' hkx
    · have : x = h := by simpa using hx'
      rw [this] at hkx
      exact absurd hkx hne

theorem foldl_upsert_hasKey_mono (ws : List HistoricoRow) :
    ∀ (t : List HistoricoRow) (k : Int × Int × Nat), hasKeyB t k = true →
      hasKeyB (ws.foldl upsertRow t) k = true := by
  induction ws with
  | nil => intro t k hk; exact hk
  | cons w rest ih =>
    intro t k hk
    exact ih _ k (hasKeyB_upsertRow_mono t w k hk)

theorem foldl_upsert_present (ws : List HistoricoRow) :
    ∀ (t : List HistoricoRow) (r : HistoricoRow), r ∈ ws →
      hasKeyB (ws.foldl upsertRow t) (hkey r) = true := by
  induction ws with
  | nil => intro t r hr; exact absurd hr (by simp)
  | cons w rest ih =>
    intro t r hr
    rcases List.mem_cons.mp hr with h1 | h1
    · rw [h1, List.foldl_cons]
      exact foldl_upsert_hasKey_mono rest _ _ (hasKeyB_upsertRow_self t w)
    · exact ih _ r h1

theorem foldl_upsert_other_key (ws : List HistoricoRow) :
    ∀ (t : List HistoricoRow) (k : Int × Int × Nat) (v : HistoricoRow),
      (∀ r ∈ ws, hkey r ≠ k) → (∀ x ∈ t, hkey x = k → x = v) →
      ∀ x ∈ ws.foldl upsertRow t, hkey x = k → x = v := by
  induction ws with
  | nil => intro t k v _ hall; exact hall
  | cons w rest ih =>
    intro t k v hne hall
    rw [List.foldl_cons]
    exact ih _ k v (fun r hr => hne r (List.mem_cons_of_mem _ hr))
      (upsertRow_other_key t w k v (hne w (List.mem_cons_self w rest)) hall)

/-- After upserting a key-nodup batch, every table element carrying the key
of a batch row equals that batch row. -/
theorem foldl_upsert_elem_eq (ws : List HistoricoRow) :
    ∀ (t : List HistoricoRow), (ws.map hkey).Nodup →
      ∀ r ∈ ws, ∀ x ∈ ws.foldl upsertRow t, hkey x = hkey r → x = r := by
  induction ws with
  | nil => intro t _ r hr; exact absurd hr (by simp)
  | cons w rest ih =>
    intro t hnd r hr
    have hnd' : (∀ x ∈ rest, ¬ hkey x = hkey w) ∧ (rest.map hkey).Nodup := by
      simpa using hnd
    rcases List.mem_cons.mp hr with h1 | h1
    · subst h1
      rw [List.foldl_cons]
      refine foldl_upsert_other_key rest _ (hkey r) r ?_ (upsertRow_self_key t r)
      intro s hs
      exact hnd'.1 s hs
    · rw [List.foldl_cons]
      exact ih _ hnd'.2 r h1

theorem upsertRow_id (t : List HistoricoRow) (h : HistoricoRow)
    (hpres : hasKeyB t (hkey h) = true)
    (hall : ∀ x ∈ t, hkey x = hkey h → x = h) :
    upsertRow t h = t := by
  rw [upsertRow_eq, if_pos hpres]
  conv_rhs => rw [← List.map_id t]
  apply List.map_congr_left
  intro x hx
  by_cases hc : hkey x = hkey h
  · rw [if_pos hc, hall x hx hc]
    rfl
  · rw [if_neg hc]
    rfl

theorem foldl_upsert_id (ws : List HistoricoRow) :
    ∀ (t : List HistoricoRow),
      (∀ r ∈ ws, hasKeyB t (hkey r) = true ∧ ∀ x ∈ t, hkey x = hkey r → x = r) →
      ws.foldl upsertRow t = t := by
  induction ws with
  | nil => intro t _; rfl
  | cons w rest ih =>
    intro t hinv
    rw [List.foldl_cons, upsertRow_id t w (hinv w (List.mem_cons_self w rest)).1
      (hinv w (List.mem_cons_self w rest)).2]
    exact ih t (fun r hr => hinv r (List.mem_cons_of_mem _ hr))

/-- The keys of the `port_entrada` winners are pairwise distinct. -/
theorem port_entrada_keys_nodup (staging : List ImportRow) :
    ((port_entrada staging).map hkey).Nodup := by
  rw [port_entrada]
  have hψ : ∀ (k : Int × Nat) (h : HistoricoRow),
      ((selectWinner staging k).map toHistorico) = some h →
      hkey h = (cn_from_tn k.1, k.1, k.2) := by
    intro k h hh
    obtain ⟨w, hw, hwh⟩ := Option.map_eq_some'.mp hh
    have hs := selectWinner_spec staging k w hw
    rw [← hwh]
    rw [hkey, toHistorico]
    rw [← hs.2.1]
    rfl
  have hnd : ((staging.map rowKey).dedup).Nodup := List.nodup_dedup _
  generalize hks : (staging.map rowKey).dedup = ks at hnd ⊢
  clear hks
  induction ks with
  | nil => simp
  | cons k rest ih =>
    have hnd' := List.nodup_cons.mp hnd
    rw [List.filterMap_cons]
    cases hg : (selectWinner staging k).map toHistorico with
    | none => exact ih hnd'.2
    | some h =>
      rw [List.map_cons, List.nodup_cons]
      refine ⟨?_, ih hnd'.2⟩
      intro hc
      obtain ⟨h', hh', hhe⟩ := List.mem_map.mp hc
      obtain ⟨k', hk', hg'⟩ := List.mem_filterMap.mp hh'
      have e1 := hψ k h hg
      have e2 := hψ k' h' hg'
      have hkk : (cn_from_tn k.1, k.1, k.2) = (cn_from_tn k'.1, k'.1, k'.2) := by
        rw [← e1, ← e2, hhe]
      have h21 : k.1 = k'.1 := congrArg (fun p => p.2.1) hkk
      have h22 : k.2 = k'.2 := congrArg (fun p => p.2.2) hkk
      have hkeq : k = k' := Prod.ext h21 h22
      rw [hkeq] at hnd'
      exact hnd'.1 hk'

/-- Claim C3: the consolidation upsert is idempotent — running the
consolidator a second time against unchanged staging content leaves the
history table unchanged. -/
theorem C3_consolidation_idempotent (t : List HistoricoRow) (staging : List ImportRow) :
    update_tb_portabilidade_historico
      (update_tb_portabilidade_historico t staging) staging
      = update_tb_portabilidade_historico t staging := by
  rw [update_tb_portabilidade_historico, update_tb_portabilidade_historico]
  apply foldl_upsert_id
  intro r hr
  exact ⟨foldl_upsert_present _ t r hr,
    foldl_upsert_elem_eq _ t (port_entrada_keys_nodup staging) r hr⟩

/-! ### Claim C10: the partition key `cn` -/

/-- Claim C10: every record the consolidator writes is the projection of a
staging row, and its partition key `cn` is the integer value of the first
two characters of the decimal text of `tn_inicial` — for a nonnegative
number whose decimal text has `k ≥ 2` digits this is `tn / 10^(k-2)`, and
for numbers of 10 or 11 digits it coincides with the area code the
resolution engine derives from the number's text.  `cn` is a function of
`tn_inicial` alone, never of a source-file column. -/
theorem C10_partition_key_from_number_text (staging : List ImportRow) :
    ∀ h ∈ port_entrada staging,
      (∃ s ∈ staging, h = toHistorico s) ∧
      h.cn = cn_from_tn h.tn_inicial ∧
      (0 ≤ h.tn_inicial → ∀ k : Nat, (natReprL h.tn_inicial.toNat).length = k → 2 ≤ k →
        h.cn = ((h.tn_inicial.toNat / 10 ^ (k - 2) : Nat) : Int)) ∧
      ((natReprL h.tn_inicial.toNat).length = 10 ∨ (natReprL h.tn_inicial.toNat).length = 11 →
        0 ≤ h.tn_inicial →
        parseInt? (cnField (natReprL h.tn_inicial.toNat)) = some h.cn) := by
  intro h hmem
  obtain ⟨k, _, hg⟩ := List.mem_filterMap.mp hmem
  obtain ⟨w, hw, hwh⟩ := Option.map_eq_some'.mp hg
  have hws := selectWinner_spec staging k w hw
  have htn : h.tn_inicial = w.tn_inicial := by rw [← hwh]; rfl
  have hcn : h.cn = cn_from_tn h.tn_inicial := by
    rw [← hwh]
    rfl
  have hdiv : 0 ≤ h.tn_inicial → ∀ j : Nat, (natReprL h.tn_inicial.toNat).length = j →
      2 ≤ j → h.cn = ((h.tn_inicial.toNat / 10 ^ (j - 2) : Nat) : Int) := by
    intro hpos j hlen hj
    rw [hcn, cn_from_tn, intReprL, if_neg (by omega)]
    rw [natReprL_take_two h.tn_inicial.toNat (by omega), hlen, parseInt?_natReprL]
    rfl
  refine ⟨⟨w, hws.1, hwh.symm⟩, hcn, hdiv, ?_⟩
  intro hlen hpos
  have h2 : 2 ≤ (natReprL h.tn_inicial.toNat).length := by
    rcases hlen with h1 | h1 <;> omega
  have hcnf : cnField (natReprL h.tn_inicial.toNat) = (natReprL h.tn_inicial.toNat).take 2 := by
    rw [cnField, if_pos hlen]
  rw [hcnf, natReprL_take_two h.tn_inicial.toNat h2, parseInt?_natReprL,
    hdiv hpos _ rfl h2]

/-- Witness for `C10_partition_key_from_number_text` on a staging table with
one 11-digit number: the written record's `cn` is 11, the number's leading
two digits and the engine's derived area code. -/
theorem C10_partition_key_witness :
    let s : ImportRow :=
      { tipo_registro := some 1, numero_bp := 7266080, tn_inicial := 11987654321,
        cod_receptora := some 123, nome_receptora := some ("TIM SA".toList),
        cod_doadora := some 121, nome_doadora := some ("EMBRATEL".toList),
        data_agendamento := 86400, cod_status := some 1, status := some ("Ativo".toList),
        ind_portar_origem := some 0, nome_arquivo := "A.csv".toList }
    (toHistorico s).cn = ((11987654321 / 10 ^ 9 : Nat) : Int) ∧
      parseInt? (cnField (natReprL 11987654321)) = some (toHistorico s).cn := by
  intro s
  have hmem : toHistorico s ∈ port_entrada [s] := by decide
  have h := C10_partition_key_from_number_text [s] (toHistorico s) hmem
  have htn : (toHistorico s).tn_inicial = (11987654321 : Int) := rfl
  refine ⟨?_, ?_⟩
  · have := h.2.2.1 (by rw [htn]; omega) 11 (by rw [htn]; decide) (by omega)
    rw [this, htn]
    rfl
  · have := h.2.2.2 (by rw [htn]; exact Or.inr (by decide)) (by rw [htn]; omega)
    rw [htn] at this
    exact this

/-! ## Chunked ingestion of portability files

Shallow embedding of `_read_file_in_chunks` + `_process_chunk` in
`_abr_portabilidade.py` for one chunk.  A raw CSV cell is `Option (List
Char)` (`none` = empty cell).  `pd.read_csv` is called with `dtype=int` for
`numero_bp`, `tn_inicial` and `cod_status`, so a missing or unparseable
value in those columns aborts the whole read; `parse_dates` with a fixed
format converts the `data_agendamento` column as a whole and falls back to
the raw text of the entire column when any value fails to parse.
`_process_chunk` then maps `ind_portar_origem` through {Sim, Nao} and
`astype("int8")` (which raises on anything else), coerces
`cod_receptora`/`cod_doadora` with `to_numeric(errors="coerce")`, and drops
rows with missing `numero_bp`/`tn_inicial` (none can remain at that
point). -/

structure PipRawRow where
  tipo_registro : Option (List Char)
  numero_bp : Option (List Char)
  tn_inicial : Option (List Char)
  cod_receptora : Option (List Char)
  nome_receptora : Option (List Char)
  cod_doadora : Option (List Char)
  nome_doadora : Option (List Char)
  data_agendamento : Option (List Char)
  cod_status : Option (List Char)
  status : Option (List Char)
  ind_portar_origem : Option (List Char)
deriving DecidableEq

inductive ChunkError where
  | intColumnFailure
  | indPortarOrigemFailure
deriving DecidableEq

/-- The `data_agendamento` value of a staged row: the parsed timestamp when
the whole column converted, else the untouched raw text. -/
inductive DateCol where
  | parsedTs (ts : Option (Nat × Nat × Nat × Nat × Nat × Nat))
  | rawText (s : Option (List Char))
deriving DecidableEq

structure StagedPipRow where
  tipo_registro : Option (List Char)
  numero_bp : Option Int
  tn_inicial : Option Int
  cod_receptora : Option Int
  nome_receptora : Option (List Char)
  cod_doadora : Option Int
  nome_doadora : Option (List Char)
  data_agendamento : DateCol
  cod_status : Int
  status : Option (List Char)
  ind_portar_origem : Int
  nome_arquivo : List Char
deriving DecidableEq

def splitOnChar (sep : Char) : List Char → List (List Char)
  | [] => [[]]
  | c :: rest =>
    let r := splitOnChar sep rest
    if c = sep then [] :: r
    else
      match r with
      | [] => [[c]]
      | g :: gs => (c :: g) :: gs

/-- `datetime.strptime(s, "%d/%m/%Y %H:%M:%S")`: day and month take one or
two digits, the year exactly four; the date must be calendar-valid and the
time fields within strptime's ranges. Returns `(y, m, d, h, min, s)`. -/
def parsePipDate (s : List Char) : Option (Nat × Nat × Nat × Nat × Nat × Nat) :=
  match splitOnChar ' ' s with
  | [datePart, timePart] =>
    match splitOnChar '/' datePart, splitOnChar ':' timePart with
    | [ds, ms, ys], [hs, mins, secs] =>
      if ds ≠ [] ∧ ds.length ≤ 2 ∧ ds.all Char.isDigit ∧
         ms ≠ [] ∧ ms.length ≤ 2 ∧ ms.all Char.isDigit ∧
         ys.length = 4 ∧ ys.all Char.isDigit ∧
         hs ≠ [] ∧ hs.length ≤ 2 ∧ hs.all Char.isDigit ∧
         mins ≠ [] ∧ mins.length ≤ 2 ∧ mins.all Char.isDigit ∧
         secs ≠ [] ∧ secs.length ≤ 2 ∧ secs.all Char.isDigit then
        let d := parseDigits ds
        let m := parseDigits ms
        let y := parseDigits ys
        let hh := parseDigits hs
        let mi := parseDigits mins
        let ss := parseDigits secs
        if validYMD y m d ∧ hh ≤ 23 ∧ mi ≤ 59 ∧ ss ≤ 61 then
          some (y, m, d, hh, mi, ss)
        else none
      else none
    | _, _ => none
  | _ => none

/-- Parse one cell of an integer-dtype column; missing or unparseable values
raise a read error ("Integer column has NA values" / cast failure). -/
def pyInt? (o : Option (List Char)) : Except ChunkError Int :=
  match o with
  | none => Except.error ChunkError.intColumnFailure
  | some s =>
    match parseInt? s with
    | some v => Except.ok v
    | none => Except.error ChunkError.intColumnFailure

/-- The `dtype=int` columns of the read: `numero_bp`, `tn_inicial`,
`cod_status`. -/
def readIntCols : List PipRawRow → Except ChunkError (List (PipRawRow × Int × Int × Int))
  | [] => Except.ok []
  | r :: rest =>
    match pyInt? r.numero_bp, pyInt? r.tn_inicial, pyInt? r.cod_status with
    | Except.ok nb, Except.ok tn, Except.ok cs =>
      match readIntCols rest with
      | Except.ok ps => Except.ok ((r, nb, tn, cs) :: ps)
      | Except.error e => Except.error e
    | Except.error e, _, _ => Except.error e
    | _, Except.error e, _ => Except.error e
    | _, _, Except.error e => Except.error e

/-- Column-wise date conversion of `read_csv(parse_dates=...)`: succeeds
only if every non-missing value parses. -/
def dateColumnOk (rows : List PipRawRow) : Bool :=
  rows.all (fun r =>
    match r.data_agendamento with
    | none => true
    | some s => (parsePipDate s).isSome)

/-- `map({"Sim": 1, "Nao": 0}).astype("int8")`: anything else (or a missing
value) becomes NaN and the integer cast raises. -/
def ipoMap (o : Option (List Char)) : Except ChunkError Int :=
  match o with
  | some s =>
    if s = "Sim".toList then Except.ok 1
    else if s = "Nao".toList then Except.ok 0
    else Except.error ChunkError.indPortarOrigemFailure
  | none => Except.error ChunkError.indPortarOrigemFailure

def mkStaged (nome_arquivo : List Char) (dateOk : Bool)
    (p : PipRawRow × Int × Int × Int) (ipo : Int) : StagedPipRow :=
  { tipo_registro := p.1.tipo_registro
    numero_bp := some p.2.1
    tn_inicial := some p.2.2.1
    cod_receptora := p.1.cod_receptora.bind (fun s => parseInt? s)
    nome_receptora := p.1.nome_receptora
    cod_doadora := p.1.cod_doadora.bind (fun s => parseInt? s)
    nome_doadora := p.1.nome_doadora
    data_agendamento :=
      if dateOk then DateCol.parsedTs (p.1.data_agendamento.bind parsePipDate)
      else DateCol.rawText p.1.data_agendamento
    cod_status := p.2.2.2
    status := p.1.status
    ind_portar_origem := ipo
    nome_arquivo := nome_arquivo }

def stageRows (nome_arquivo : List Char) (dateOk : Bool) :
    List (PipRawRow × Int × Int × Int) → Except ChunkError (List StagedPipRow)
  | [] => Except.ok []
  | p :: rest =>
    match ipoMap p.1.ind_portar_origem with
    | Except.ok ipo =>
      match stageRows nome_arquivo dateOk rest with
      | Except.ok os => Except.ok (mkStaged nome_arquivo dateOk p ipo :: os)
      | Except.error e => Except.error e
    | Except.error e => Except.error e

/-- One chunk of `_read_file_in_chunks` followed by `_process_chunk`: read
the integer columns and the date column, apply the mappings and coercions,
then `dropna(subset=["numero_bp", "tn_inicial"])`. -/
def read_and_process_chunk (nome_arquivo : List Char) (rows : List PipRawRow) :
    Except ChunkError (List StagedPipRow) :=
  match readIntCols rows with
  | Except.ok parsed =>
    match stageRows nome_arquivo (dateColumnOk rows) parsed with
    | Except.ok staged =>
      Except.ok (staged.filter (fun r => r.numero_bp.isSome && r.tn_inicial.isSome))
    | Except.error e => Except.error e
  | Except.error e => Except.error e

theorem pyInt?_ok_bind {o : Option (List Char)} {v : Int} (h : pyInt? o = Except.ok v) :
    o.bind (fun s => parseInt? s) = some v := by
  cases o with
  | none => exact absurd h (by simp [pyInt?])
  | some s =>
    rw [pyInt?] at h
    cases hp : parseInt? s with
    | none => rw [hp] at h; exact absurd h (by simp)
    | some w =>
      rw [hp] at h
      injection h with h
      simp [hp, h]

/-- What `_process_chunk` guarantees about a kept row relative to its raw
row. -/
def stagedRel (dateOk : Bool) (fn : List Char) (r : PipRawRow) (o : StagedPipRow) : Prop :=
  o.cod_receptora = r.cod_receptora.bind (fun s => parseInt? s) ∧
  o.cod_doadora = r.cod_doadora.bind (fun s => parseInt? s) ∧
  o.data_agendamento = (if dateOk then DateCol.parsedTs (r.data_agendamento.bind parsePipDate)
    else DateCol.rawText r.data_agendamento) ∧
  o.numero_bp = r.numero_bp.bind (fun s => parseInt? s) ∧
  o.tn_inicial = r.tn_inicial.bind (fun s => parseInt? s) ∧
  o.nome_arquivo = fn

theorem stage_spec (rows : List PipRawRow) :
    ∀ (ps : List (PipRawRow × Int × Int × Int)) (staged : List StagedPipRow)
      (fn : List Char) (dOk : Bool), readIntCols rows = Except.ok ps →
      stageRows fn dOk ps = Except.ok staged →
      List.Forall₂ (stagedRel dOk fn) rows staged := by
  induction rows with
  | nil =>
    intro ps staged fn dOk hread hstage
    rw [readIntCols] at hread
    injection hread with hread
    rw [← hread] at hstage
    rw [stageRows] at hstage
    injection hstage with hstage
    rw [← hstage]
    exact List.Forall₂.nil
  | cons r rest ih =>
    intro ps staged fn dOk hread hstage
    rw [readIntCols] at hread
    split at hread
    · rename_i nb tn cs hnb htn hcs
      split at hread
      · rename_i ps' hps'
        injection hread with hread
        rw [← hread] at hstage
        rw [stageRows] at hstage
        split at hstage
        · rename_i ipo hipo
          split at hstage
          · rename_i os hos
            injection hstage with hstage
            rw [← hstage]
            refine List.Forall₂.cons ?_ (ih ps' os fn dOk hps' hos)
            refine ⟨rfl, rfl, rfl, ?_, ?_, rfl⟩
            · exact (pyInt?_ok_bind hnb).symm
            · exact (pyInt?_ok_bind htn).symm
          · exact absurd hstage (by simp)
        · exact absurd hstage (by simp)
      · exact absurd hread (by simp)
    · exact absurd hread (by simp)
    · exact absurd hread (by simp)
    · exact absurd hread (by simp)

theorem stageRows_all_some (fn : List Char) (dOk : Bool) :
    ∀ (ps : List (PipRawRow × Int × Int × Int)) (staged : List StagedPipRow),
      stageRows fn dOk ps = Except.ok staged →
      ∀ o ∈ staged, (o.numero_bp.isSome && o.tn_inicial.isSome) = true := by
  intro ps
  induction ps with
  | nil =>
    intro staged h o ho
    rw [stageRows] at h
    injection h with h
    rw [← h] at ho
    exact absurd ho (by simp)
  | cons p rest ih =>
    intro staged h o ho
    rw [stageRows] at h
    split at h
    · split at h
      · rename_i os hos
        injection h with h
        rw [← h] at ho
        rcases List.mem_cons.mp ho with h1 | h1
        · rw [h1, mkStaged]
          rfl
        · exact ih os hos o h1
      · exact absurd h (by simp)
    · exact absurd h (by simp)

theorem readIntCols_parses (rows : List PipRawRow) :
    ∀ ps, readIntCols rows = Except.ok ps →
      ∀ r ∈ rows, (r.numero_bp.bind (fun s => parseInt? s)).isSome ∧
        (r.tn_inicial.bind (fun s => parseInt? s)).isSome ∧
        (r.cod_status.bind (fun s => parseInt? s)).isSome := by
  induction rows with
  | nil => intro ps _ r hr; exact absurd hr (by simp)
  | cons r₀ rest ih =>
    intro ps hread r hr
    rw [readIntCols] at hread
    split at hread
    · rename_i nb tn cs hnb htn hcs
      split at hread
      · rename_i ps' hps'
        rcases List.mem_cons.mp hr with h1 | h1
        · rw [h1]
          exact ⟨by rw [pyInt?_ok_bind hnb]; rfl, by rw [pyInt?_ok_bind htn]; rfl,
            by rw [pyInt?_ok_bind hcs]; rfl⟩
        · exact ih ps' hps' r h1
      · exact absurd hread (by simp)
    · exact absurd hread (by simp)
    · exact absurd hread (by simp)
    · exact absurd hread (by simp)

theorem readIntCols_mem (rows : List PipRawRow) :
    ∀ ps, readIntCols rows = Except.ok ps →
      ∀ r ∈ rows, ∃ p ∈ ps, p.1 = r := by
  induction rows with
  | nil => intro ps _ r hr; exact absurd hr (by simp)
  | cons r₀ rest ih =>
    intro ps hread r hr
    rw [readIntCols] at hread
    split at hread
    · rename_i nb tn cs hnb htn hcs
      split at hread
      · rename_i ps' hps'
        injection hread with hread
        rcases List.mem_cons.mp hr with h1 | h1
        · exact ⟨(r₀, nb, tn, cs), by rw [← hread]; exact List.mem_cons_self _ _, h1.symm⟩
        · obtain ⟨p, hp, hpe⟩ := ih ps' hps' r h1
          exact ⟨p, by rw [← hread]; exact List.mem_cons_of_mem _ hp, hpe⟩
      · exact absurd hread (by simp)
    · exact absurd hread (by simp)
    · exact absurd hread (by simp)
    · exact absurd hread (by simp)

theorem stageRows_ipo_ok (fn : List Char) (dOk : Bool) :
    ∀ (ps : List (PipRawRow × Int × Int × Int)) (staged : List StagedPipRow),
      stageRows fn dOk ps = Except.ok staged →
      ∀ p ∈ ps, ∃ v, ipoMap p.1.ind_portar_origem = Except.ok v := by
  intro ps
  induction ps with
  | nil => intro staged _ p hp; exact absurd hp (by simp)
  | cons p₀ rest ih =>
    intro staged h p hp
    rw [stageRows] at h
    split at h
    · rename_i ipo hipo
      split at h
      · rename_i os hos
        rcases List.mem_cons.mp hp with h1 | h1
        · exact ⟨ipo, by rw [h1]; exact hipo⟩
        · exact ih os hos p h1
      · exact absurd h (by simp)
    · exact absurd h (by simp)

/-- Claim C7 counterexample: a structurally valid row whose effective date
`31/13/2020 00:00:00` is unparseable is not dropped — it is kept, reaches
the loader, and the date column falls back to the raw text. -/
theorem C7_counterexample_unparseable_date_kept :
    let rBad : PipRawRow :=
      { tipo_registro := some ("1".toList), numero_bp := some ("7266080".toList),
        tn_inicial := some ("2139838686".toList), cod_receptora := some ("0123".toList),
        nome_receptora := some ("TIM SA".toList), cod_doadora := some ("0121".toList),
        nome_doadora := some ("EMBRATEL".toList),
        data_agendamento := some ("31/13/2020 00:00:00".toList),
        cod_status := some ("1".toList), status := some ("Ativo".toList),
        ind_portar_origem := some ("Nao".toList) }
    parsePipDate ("31/13/2020 00:00:00".toList) = none ∧
    (read_and_process_chunk ("PIP_A.csv.gz".toList) [rBad]).map List.length
      = Except.ok 1 ∧
    (read_and_process_chunk ("PIP_A.csv.gz".toList) [rBad]).map
      (List.map StagedPipRow.data_agendamento)
      = Except.ok [DateCol.rawText (some ("31/13/2020 00:00:00".toList))] := by
  intro rBad
  exact ⟨by decide, by decide, by decide⟩

/-- Claim C7 as amended: a successfully processed chunk keeps exactly one
staged row per raw row (no row is dropped), with `cod_receptora`,
`cod_doadora` coerced through numeric parsing (missing on failure) and the
date column either parsed as a whole or left as raw text as a whole; a
missing or unparseable `numero_bp`, `tn_inicial` or `cod_status` aborts the
whole chunk with an error, as does an `ind_portar_origem` value other than
`Sim`/`Nao`. -/
theorem C7_chunk_processing_amended :
    (∀ (fn : List Char) (rows : List PipRawRow) (out : List StagedPipRow),
      read_and_process_chunk fn rows = Except.ok out →
      out.length = rows.length ∧
      List.Forall₂ (stagedRel (dateColumnOk rows) fn) rows out)
    ∧ (∀ (fn : List Char) (rows : List PipRawRow),
      (∃ r ∈ rows, (r.numero_bp.bind (fun s => parseInt? s)) = none ∨
        (r.tn_inicial.bind (fun s => parseInt? s)) = none ∨
        (r.cod_status.bind (fun s => parseInt? s)) = none) →
      ∃ e, read_and_process_chunk fn rows = Except.error e)
    ∧ (∀ (fn : List Char) (rows : List PipRawRow),
      (∃ r ∈ rows, r.ind_portar_origem = none ∨
        (∃ s, r.ind_portar_origem = some s ∧ s ≠ "Sim".toList ∧ s ≠ "Nao".toList)) →
      ∃ e, read_and_process_chunk fn rows = Except.error e) := by
  refine ⟨?_, ?_, ?_⟩
  · intro fn rows out hok
    rw [read_and_process_chunk] at hok
    split at hok
    · rename_i ps hps
      split at hok
      · rename_i staged hstaged
        injection hok with hok
        have hff := stage_spec rows ps staged fn (dateColumnOk rows) hps hstaged
        have hfilter : staged.filter
            (fun r => r.numero_bp.isSome && r.tn_inicial.isSome) = staged :=
          List.filter_eq_self.mpr (stageRows_all_some fn (dateColumnOk rows) ps staged hstaged)
        rw [← hok, hfilter]
        exact ⟨hff.length_eq.symm, hff⟩
      · exact absurd hok (by simp)
    · exact absurd hok (by simp)
  · intro fn rows hbad
    obtain ⟨r, hr, hbad⟩ := hbad
    cases hres : read_and_process_chunk fn rows with
    | error e => exact ⟨e, rfl⟩
    | ok out =>
      exfalso
      rw [read_and_process_chunk] at hres
      split at hres
      · rename_i ps hps
        have hp := readIntCols_parses rows ps hps r hr
        rcases hbad with h | h | h
        · rw [h] at hp
          exact absurd hp.1 (by simp)
        · rw [h] at hp
          exact absurd hp.2.1 (by simp)
        · rw [h] at hp
          exact absurd hp.2.2 (by simp)
      · exact absurd hres (by simp)
  · intro fn rows hbad
    obtain ⟨r, hr, hbad⟩ := hbad
    cases hres : read_and_process_chunk fn rows with
    | error e => exact ⟨e, rfl⟩
    | ok out =>
      exfalso
      rw [read_and_process_chunk] at hres
      split at hres
      · rename_i ps hps
        split at hres
        · rename_i staged hstaged
          obtain ⟨p, hp, hpe⟩ := readIntCols_mem rows ps hps r hr
          obtain ⟨v, hv⟩ := stageRows_ipo_ok fn (dateColumnOk rows) ps staged hstaged p hp
          rw [hpe] at hv
          rcases hbad with h | ⟨s, hs, hs1, hs2⟩
          · rw [h] at hv
            simp [ipoMap] at hv
          · rw [hs] at hv
            simp only [ipoMap] at hv
            rw [if_neg hs1, if_neg hs2] at hv
            exact absurd hv (by simp)
        · exact absurd hres (by simp)
      · exact absurd hres (by simp)

/-- Witness for `C7_chunk_processing_amended`: a two-row chunk with one
coercible `cod_receptora` failure keeps both rows, and a chunk whose
`tn_inicial` is unparseable fails whole. -/
theorem C7_chunk_processing_amended_witness :
    let rGood : PipRawRow :=
      { tipo_registro := some ("1".toList), numero_bp := some ("7266080".toList),
        tn_inicial := some ("2139838686".toList), cod_receptora := some ("abc".toList),
        nome_receptora := some ("TIM SA".toList), cod_doadora := some ("0121".toList),
        nome_doadora := some ("EMBRATEL".toList),
        data_agendamento := some ("11/06/2010 00:00:00".toList),
        cod_status := some ("1".toList), status := some ("Ativo".toList),
        ind_portar_origem := some ("Nao".toList) }
    let rBadTn : PipRawRow := { rGood with tn_inicial := some ("x".toList) }
    (∃ out, read_and_process_chunk ("PIP_A.csv.gz".toList) [rGood] = Except.ok out ∧
      out.length = 1) ∧
    (∃ e, read_and_process_chunk ("PIP_A.csv.gz".toList) [rBadTn] = Except.error e) := by
  intro rGood rBadTn
  constructor
  · have hres : read_and_process_chunk ("PIP_A.csv.gz".toList) [rGood]
        = Except.ok [mkStaged ("PIP_A.csv.gz".toList) true (rGood, 7266080, 2139838686, 1) 0] := by
      decide
    refine ⟨_, hres, ?_⟩
    exact ((C7_chunk_processing_amended.1 ("PIP_A.csv.gz".toList) [rGood] _ hres).1).trans rfl
  · exact C7_chunk_processing_amended.2.1 ("PIP_A.csv.gz".toList) [rBadTn]
      ⟨rBadTn, by simp, Or.inr (Or.inl (by decide))⟩

/-! ## Numbering-plan file type router

Shallow embedding of `_detect_file_type`, `_get_file_config`,
`_import_single_file` and `_import_multiple_files` in `_abr_numeracao.py`.
Only the control flow relevant to file classification is modelled: a file is
its name and the number of rows its chunks hold. -/

inductive NsapnFileType where
  | STFC
  | SMP_SME
  | CNG
  | SUP
deriving DecidableEq

inductive LoadError where
  | unknownFileType
deriving DecidableEq

/-- `_detect_file_type`: case-insensitive prefix match on the fixed tag
list; returns `None` when no tag matches (despite the comment about
defaulting to STFC, the code returns `None`). -/
def detect_file_type (file_name : List Char) : Option NsapnFileType :=
  let filename_upper := file_name.map Char.toUpper
  if List.isPrefixOf ("STFC".toList) filename_upper then some NsapnFileType.STFC
  else if List.isPrefixOf ("SMP".toList) filename_upper ∨
      List.isPrefixOf ("SME".toList) filename_upper then some NsapnFileType.SMP_SME
  else if List.isPrefixOf ("CNG".toList) filename_upper then some NsapnFileType.CNG
  else if List.isPrefixOf ("SUP".toList) filename_upper then some NsapnFileType.SUP
  else none

structure FileConfig where
  table : List Char
  columns : List (List Char)
deriving DecidableEq

def TABLE_NUMERACAO : List Char := "abr_numeracao_teletools".toList

def TABLE_CNG : List Char := "abr_cng_teletools".toList

def TABLE_SUP : List Char := "abr_sup_teletools".toList

def STFC_FILE_COLUMNS : List (List Char) :=
  ["nome_prestadora", "cnpj_prestadora", "uf", "cn", "prefixo", "faixa_inicial",
   "faixa_final", "codigo_cnl", "nome_localidade", "area_local", "sigla_area_local",
   "codigo_area_local", "status"].map String.toList

def SMP_SME_FILE_COLUMNS : List (List Char) :=
  ["nome_prestadora", "cnpj_prestadora", "cn", "prefixo", "faixa_inicial",
   "faixa_final", "status"].map String.toList

def CNG_FILE_COLUMNS : List (List Char) :=
  ["nome_prestadora", "cnpj_prestadora", "codigo_nao_geografico", "status"].map String.toList

def SUP_FILE_COLUMNS : List (List Char) :=
  ["nome_prestadora", "cnpj_prestadora", "numero_sup", "extensao", "uf", "cn",
   "codigo_municipio", "nome_municipio", "instituicao", "tipo", "status"].map String.toList

/-- `_get_file_config`: raises `ValueError("Unknown file type: None")` when
`_detect_file_type` returned `None`. -/
def get_file_config : Option NsapnFileType → Except LoadError FileConfig
  | some NsapnFileType.STFC =>
    Except.ok { table := TABLE_NUMERACAO, columns := STFC_FILE_COLUMNS }
  | some NsapnFileType.SMP_SME =>
    Except.ok { table := TABLE_NUMERACAO, columns := SMP_SME_FILE_COLUMNS }
  | some NsapnFileType.CNG =>
    Except.ok { table := TABLE_CNG, columns := CNG_FILE_COLUMNS }
  | some NsapnFileType.SUP =>
    Except.ok { table := TABLE_SUP, columns := SUP_FILE_COLUMNS }
  | none => Except.error LoadError.unknownFileType

structure NsapnFile where
  name : List Char
  nrows : Nat
deriving DecidableEq

/-- `_import_single_file`: `_read_file_in_chunks` calls `_get_file_config`
before yielding any chunk, so an unrecognized file type raises before a row
is counted; the in-loop `return 0` skip branch is unreachable. -/
def import_single_file (f : NsapnFile) : Except LoadError Nat :=
  match get_file_config (detect_file_type f.name) with
  | Except.ok _ => Except.ok f.nrows
  | Except.error e => Except.error e

inductive FileStat where
  | success (lines : Nat)
  | failure (lines : Nat)
deriving DecidableEq

/-- `_import_multiple_files`: each file's exception is caught and recorded
as a per-file `{"status": "error", ..., "linhas": 0}` entry; the run
continues with the next file. -/
def import_multiple_files (files : List NsapnFile) : List (List Char × FileStat) :=
  files.map (fun f =>
    match import_single_file f with
    | Except.ok n => (f.name, FileStat.success n)
    | Except.error _ => (f.name, FileStat.failure 0))

/-- Claim C8 evaluated on the code: a file whose name matches no tag is
classified `None`, `_get_file_config(None)` raises, and the multi-file loop
records the file as a per-file error with zero rows — not as a skip — while
later files still import (here a lower-case `stfc` file, showing the
case-insensitive match). -/
theorem C8_unknown_type_is_per_file_error :
    detect_file_type ("DADOS_2024.zip".toList) = none ∧
    import_single_file { name := ("DADOS_2024.zip".toList), nrows := 5 }
      = Except.error LoadError.unknownFileType ∧
    import_multiple_files
      [{ name := ("DADOS_2024.zip".toList), nrows := 5 },
       { name := ("stfc_lista.zip".toList), nrows := 7 }]
      = [(("DADOS_2024.zip".toList), FileStat.failure 0),
         (("stfc_lista.zip".toList), FileStat.success 7)] := by
  exact ⟨by decide, by decide, by decide⟩

/-! ## Carrier Registry Builder

Shallow embedding of `update_table_prestadoras` in `_abr_prestadoras.py`:
for each staging table that exists, derive distinct
`(cod_prestadora, nome_prestadora)` pairs (normalizing a missing code to
`-1` with name `NÃO IDENTIFICADO`) and insert only the codes not already in
`tb_prestadoras`.  A staging table modelled as `none` does not exist and is
skipped.  Each table's insert is committed separately; a failing insert
rolls back only itself and aborts the remaining tables. -/

def NAO_IDENTIFICADO : List Char := "NÃO IDENTIFICADO".toList

inductive RegistryError where
  | uniqueViolation
  | castFailure
deriving DecidableEq

/-- The `prestadoras` CTE of `UPDATE_TB_PRESTADORAS_FROM_TB_PORTABILIDADE`:
recipient pairs, donor pairs and the explicit sentinel, `UNION`-deduplicated. -/
def prestadorasFromPortabilidade (staging : List ImportRow) :
    List (Int × Option (List Char)) :=
  ((staging.filterMap (fun (r : ImportRow) =>
      if r.cod_receptora.isSome ∨ r.nome_receptora.isSome then
        some (r.cod_receptora.getD (-1),
          if r.cod_receptora = none then some NAO_IDENTIFICADO else r.nome_receptora)
      else none))
    ++ (staging.filterMap (fun (r : ImportRow) =>
      if r.cod_doadora.isSome ∨ r.nome_doadora.isSome then
        some (r.cod_doadora.getD (-1),
          if r.cod_doadora = none then some NAO_IDENTIFICADO else r.nome_doadora)
      else none))
    ++ [(-1, some NAO_IDENTIFICADO)]).dedup

/-- The carrier columns of a numbering staging table
(`abr_numeracao`/`abr_cng`/`abr_sup`): name and CNPJ text. -/
structure NumeracaoStagingRow where
  nome_prestadora : Option (List Char)
  cnpj_prestadora : Option (List Char)
deriving DecidableEq

/-- The `prestadoras` CTE of `UPDATE_TB_PRESTADORAS_FROM_TB_NUMERACAO`:
`COALESCE(cnpj_prestadora::bigint, -1)`; the cast raises when a non-null
CNPJ text is not numeric. -/
def prestadorasFromNumeracao (staging : List NumeracaoStagingRow) :
    Except RegistryError (List (Int × Option (List Char))) :=
  if staging.all (fun r =>
      match r.cnpj_prestadora with
      | none => true
      | some s => (parseInt? s).isSome) then
    Except.ok
      ((staging.filterMap (fun (r : NumeracaoStagingRow) =>
          if r.cnpj_prestadora.isSome ∨ r.nome_prestadora.isSome then
            some ((r.cnpj_prestadora.bind (fun s => parseInt? s)).getD (-1),
              if r.cnpj_prestadora = none then some NAO_IDENTIFICADO else r.nome_prestadora)
          else none)
        ++ [(-1, some NAO_IDENTIFICADO)]).dedup)
  else Except.error RegistryError.castFailure

/-- `INSERT ... SELECT ... LEFT JOIN tb_prestadoras ... WHERE
tp.cod_prestadora IS NULL`: append only the pairs whose code is not already
registered.  Two new pairs sharing a code would violate the primary key and
roll the statement back. -/
def insertNewPrestadoras (registry : List PrestadoraRow)
    (pairs : List (Int × Option (List Char))) : Except RegistryError (List PrestadoraRow) :=
  let newPairs := pairs.filter
    (fun p => ¬ registry.any (fun t => decide (t.cod_prestadora = p.1)))
  if (newPairs.map Prod.fst).Nodup then
    Except.ok (registry ++ newPairs.map
      (fun p => { cod_prestadora := p.1, nome_prestadora := p.2 : PrestadoraRow }))
  else Except.error RegistryError.uniqueViolation

def registryStepPort (reg : List PrestadoraRow) (tbl : Option (List ImportRow)) :
    Except RegistryError (List PrestadoraRow) :=
  match tbl with
  | none => Except.ok reg
  | some rows => insertNewPrestadoras reg (prestadorasFromPortabilidade rows)

def registryStepNum (reg : List PrestadoraRow) (tbl : Option (List NumeracaoStagingRow)) :
    Except RegistryError (List PrestadoraRow) :=
  match tbl with
  | none => Except.ok reg
  | some rows =>
    match prestadorasFromNumeracao rows with
    | Except.ok pairs => insertNewPrestadoras reg pairs
    | Except.error e => Except.error e

/-- `update_table_prestadoras` over the table sequence
`[abr_portabilidade, abr_cng, abr_sup, abr_numeracao]`: each existing
table's insert is committed in turn; an error stops the run, keeping the
already-committed state.  The boolean reports whether the run raised. -/
def update_table_prestadoras (registry : List PrestadoraRow)
    (port : Option (List ImportRow)) (cng sup stfc : Option (List NumeracaoStagingRow)) :
    List PrestadoraRow × Bool :=
  match registryStepPort registry port with
  | Except.error _ => (registry, true)
  | Except.ok r1 =>
    match registryStepNum r1 cng with
    | Except.error _ => (r1, true)
    | Except.ok r2 =>
      match registryStepNum r2 sup with
      | Except.error _ => (r2, true)
      | Except.ok r3 =>
        match registryStepNum r3 stfc with
        | Except.error _ => (r3, true)
        | Except.ok r4 => (r4, false)

/-- Registry lookup by carrier code. -/
def findCode (reg : List PrestadoraRow) (c : Int) : Option PrestadoraRow :=
  reg.find? (fun t => decide (t.cod_prestadora = c))

theorem find?_append_some {α : Type} (p : α → Bool) {l₁ : List α} (l₂ : List α)
    {t : α} (h : l₁.find? p = some t) : (l₁ ++ l₂).find? p = some t := by
  induction l₁ with
  | nil => exact absurd h (by simp)
  | cons a rest ih =>
    cases hp : p a with
    | true =>
      rw [List.find?_cons_of_pos _ hp] at h
      rw [List.cons_append, List.find?_cons_of_pos _ hp]
      exact h
    | false =>
      rw [List.find?_cons_of_neg _ (by simp [hp])] at h
      rw [List.cons_append, List.find?_cons_of_neg _ (by simp [hp])]
      exact ih h

theorem find?_append_none_left {α : Type} (p : α → Bool) {l₁ l₂ : List α}
    (h : (l₁ ++ l₂).find? p = none) : l₁.find? p = none := by
  induction l₁ with
  | nil => rfl
  | cons a rest ih =>
    rw [List.cons_append] at h
    cases hp : p a with
    | true =>
      rw [List.find?_cons_of_pos _ hp] at h
      exact absurd h (by simp)
    | false =>
      rw [List.find?_cons_of_neg _ (by simp [hp])] at h
      rw [List.find?_cons_of_neg _ (by simp [hp])]
      exact ih h

theorem insertNew_shape {reg : List PrestadoraRow}
    {pairs : List (Int × Option (List Char))} {reg' : List PrestadoraRow}
    (h : insertNewPrestadoras reg pairs = Except.ok reg') :
    ∃ tail, reg' = reg ++ tail ∧ ∀ t ∈ tail, findCode reg t.cod_prestadora = none := by
  rw [insertNewPrestadoras] at h
  split at h
  · injection h with h
    refine ⟨_, h.symm, ?_⟩
    intro t ht
    obtain ⟨p, hp, hpe⟩ := List.mem_map.mp ht
    have hflt := (List.mem_filter.mp hp).2
    rw [findCode, List.find?_eq_none]
    intro x hx
    simp only [decide_eq_true_eq]
    intro hc
    have : reg.any (fun t => decide (t.cod_prestadora = p.1)) = true :=
      List.any_eq_true.mpr ⟨x, hx, by rw [← hpe] at hc; simpa using hc⟩
    simp [this] at hflt
  · exact absurd h (by simp)

theorem registryStepPort_shape {reg : List PrestadoraRow}
    {tbl : Option (List ImportRow)} {reg' : List PrestadoraRow}
    (h : registryStepPort reg tbl = Except.ok reg') :
    ∃ tail, reg' = reg ++ tail ∧ ∀ t ∈ tail, findCode reg t.cod_prestadora = none := by
  cases tbl with
  | none =>
    rw [registryStepPort] at h
    injection h with h
    exact ⟨[], by rw [← h]; simp, by simp⟩
  | some rows => exact insertNew_shape h

theorem registryStepNum_shape {reg : List PrestadoraRow}
    {tbl : Option (List NumeracaoStagingRow)} {reg' : List PrestadoraRow}
    (h : registryStepNum reg tbl = Except.ok reg') :
    ∃ tail, reg' = reg ++ tail ∧ ∀ t ∈ tail, findCode reg t.cod_prestadora = none := by
  cases tbl with
  | none =>
    rw [registryStepNum] at h
    injection h with h
    exact ⟨[], by rw [← h]; simp, by simp⟩
  | some rows =>
    rw [registryStepNum] at h
    split at h
    · exact insertNew_shape h
    · exact absurd h (by simp)

theorem shape_trans {reg reg₁ reg₂ : List PrestadoraRow} {t₁ t₂ : List PrestadoraRow}
    (h₁ : reg₁ = reg ++ t₁) (hf₁ : ∀ t ∈ t₁, findCode reg t.cod_prestadora = none)
    (h₂ : reg₂ = reg₁ ++ t₂) (hf₂ : ∀ t ∈ t₂, findCode reg₁ t.cod_prestadora = none) :
    reg₂ = reg ++ (t₁ ++ t₂) ∧
      ∀ t ∈ t₁ ++ t₂, findCode reg t.cod_prestadora = none := by
  refine ⟨by rw [h₂, h₁, List.append_assoc], ?_⟩
  intro t ht
  rcases List.mem_append.mp ht with h | h
  · exact hf₁ t h
  · have := hf₂ t h
    rw [h₁] at this
    exact find?_append_none_left _ this

theorem update_table_prestadoras_shape (registry : List PrestadoraRow)
    (port : Option (List ImportRow)) (cng sup stfc : Option (List NumeracaoStagingRow)) :
    ∃ tail, (update_table_prestadoras registry port cng sup stfc).1 = registry ++ tail ∧
      ∀ t ∈ tail, findCode registry t.cod_prestadora = none := by
  cases h1 : registryStepPort registry port with
  | error e =>
    refine ⟨[], ?_, by simp⟩
    rw [update_table_prestadoras, h1]
    simp
  | ok r1 =>
    obtain ⟨t1, ht1, hf1⟩ := registryStepPort_shape h1
    cases h2 : registryStepNum r1 cng with
    | error e =>
      refine ⟨t1, ?_, hf1⟩
      rw [update_table_prestadoras, h1]
      dsimp only
      rw [h2]
      exact ht1
    | ok r2 =>
      obtain ⟨t2, ht2, hf2⟩ := registryStepNum_shape h2
      obtain ⟨ht12, hf12⟩ := shape_trans ht1 hf1 ht2 hf2
      cases h3 : registryStepNum r2 sup with
      | error e =>
        refine ⟨t1 ++ t2, ?_, hf12⟩
        rw [update_table_prestadoras, h1]
        dsimp only
        rw [h2]
        dsimp only
        rw [h3]
        exact ht12
      | ok r3 =>
        obtain ⟨t3, ht3, hf3⟩ := registryStepNum_shape h3
        obtain ⟨ht123, hf123⟩ := shape_trans ht12 hf12 ht3 hf3
        cases h4 : registryStepNum r3 stfc with
        | error e =>
          refine ⟨t1 ++ t2 ++ t3, ?_, hf123⟩
          rw [update_table_prestadoras, h1]
          dsimp only
          rw [h2]
          dsimp only
          rw [h3]
          dsimp only
          rw [h4]
          exact ht123
        | ok r4 =>
          obtain ⟨t4, ht4, hf4⟩ := registryStepNum_shape h4
          obtain ⟨ht1234, hf1234⟩ := shape_trans ht123 hf123 ht4 hf4
          refine ⟨t1 ++ t2 ++ t3 ++ t4, ?_, hf1234⟩
          rw [update_table_prestadoras, h1]
          dsimp only
          rw [h2]
          dsimp only
          rw [h3]
          dsimp only
          rw [h4]
          exact ht1234

/-- Claim C9: a registry run only ever appends carrier codes that were not
already registered — every pre-existing code's record (and hence its name)
is unchanged, first-writer-wins; a portability row with a missing carrier
code contributes the pair `(-1, NÃO IDENTIFICADO)`; and a run over no
existing staging tables is a no-op without error. -/
theorem C9_registry_first_writer_wins (registry : List PrestadoraRow)
    (port : Option (List ImportRow)) (cng sup stfc : Option (List NumeracaoStagingRow)) :
    (∀ (c : Int) (t : PrestadoraRow), findCode registry c = some t →
      findCode (update_table_prestadoras registry port cng sup stfc).1 c = some t) ∧
    (∀ t ∈ (update_table_prestadoras registry port cng sup stfc).1,
      t ∈ registry ∨ findCode registry t.cod_prestadora = none) ∧
    (∀ (rows : List ImportRow) (r : ImportRow), r ∈ rows → r.cod_receptora = none →
      r.nome_receptora.isSome →
      ((-1 : Int), some NAO_IDENTIFICADO) ∈ prestadorasFromPortabilidade rows) ∧
    update_table_prestadoras registry none none none none = (registry, false) := by
  obtain ⟨tail, htail, hfresh⟩ :=
    update_table_prestadoras_shape registry port cng sup stfc
  refine ⟨?_, ?_, ?_, rfl⟩
  · intro c t hc
    rw [htail]
    exact find?_append_some _ tail hc
  · intro t ht
    rw [htail] at ht
    rcases List.mem_append.mp ht with h | h
    · exact Or.inl h
    · exact Or.inr (hfresh t h)
  · intro rows r hr hcod hnome
    rw [prestadorasFromPortabilidade]
    apply List.mem_dedup.mpr
    apply List.mem_append.mpr
    refine Or.inl (List.mem_append.mpr (Or.inl ?_))
    apply List.mem_filterMap.mpr
    refine ⟨r, hr, ?_⟩
    rw [if_pos (Or.inr hnome), hcod]
    rfl

/-- Witness for `C9_registry_first_writer_wins`: a registry already holding
code 123 keeps its original name when a portability staging table reports a
different name for 123, the staging-only code 121 is added, and a missing
recipient code normalizes to the sentinel. -/
theorem C9_registry_first_writer_wins_witness :
    let old : PrestadoraRow :=
      { cod_prestadora := 123, nome_prestadora := some ("TIM OLD".toList) }
    let row : ImportRow :=
      { tipo_registro := some 1, numero_bp := 7266080, tn_inicial := 2139838686,
        cod_receptora := some 123, nome_receptora := some ("TIM SA".toList),
        cod_doadora := some 121, nome_doadora := some ("EMBRATEL".toList),
        data_agendamento := 86400, cod_status := some 1, status := some ("Ativo".toList),
        ind_portar_origem := some 0, nome_arquivo := "A.csv".toList }
    let rowMissing : ImportRow := { row with cod_receptora := none }
    findCode (update_table_prestadoras [old] (some [row]) none none none).1 123 = some old ∧
    ((-1 : Int), some NAO_IDENTIFICADO) ∈ prestadorasFromPortabilidade [rowMissing] ∧
    update_table_prestadoras [old] none none none none = ([old], false) := by
  intro old row rowMissing
  have h := C9_registry_first_writer_wins [old] (some [row]) none none none
  refine ⟨h.1 123 old (by decide), ?_, (C9_registry_first_writer_wins [old] none none none none).2.2.2⟩
  exact h.2.2.1 [rowMissing] rowMissing (by simp) (by decide) (by decide)

end Teletools
